import Mathlib

/-!
Verification development for the `cmpm-121-demo-3` geocoin game
(`src/main.ts`).  The core of the program — grid mapping, cache world
generation, the visibility window, collect/deposit, and the
localStorage persistence codec — is shallowly embedded below.  JS
numbers are modelled as exact rationals/integers (nothing in the
verified paths depends on float rounding), JS strings as Lean strings,
Maps as insertion-ordered association lists and Sets as
insertion-ordered duplicate-free lists, mirroring JS iteration order.
-/

namespace Geocoin

/-! ### Decimal formatting / parsing of JS numbers restricted to integers

`main.ts` builds string keys with template literals (`` `${i}:${j}` ``),
stores counters with `toString` and reads them back with
`parseInt(_, 10)` / `Number(_)`.  We model the decimal representation
of an integer faithfully, character by character. -/

/-- One decimal digit as a character, `digitChar d = '0' + d`. -/
def digitChar (d : Nat) : Char := Char.ofNat (48 + d)

/-- The value of a decimal digit character. -/
def charDigit (c : Char) : Nat := c.toNat - 48

/-- Decimal character list of a natural number (what JS `String(n)` emits). -/
def natChars (n : Nat) : List Char :=
  if n = 0 then ['0'] else ((Nat.digits 10 n).map digitChar).reverse

/-- Read a decimal character list back into a natural number. -/
def charsNat (cs : List Char) : Nat :=
  Nat.ofDigits 10 ((cs.map charDigit).reverse)

/-- Decimal character list of an integer (JS `String(i)` / template literal). -/
def intChars (i : Int) : List Char :=
  if i < 0 then '-' :: natChars i.natAbs else natChars i.toNat

/-- Read a (signed) decimal character list back, as JS `Number` does on
integer-formatted strings.  Branches where JS would produce `NaN`
(non-numeric text) are never reached from states considered here. -/
def charsInt (cs : List Char) : Int :=
  if cs.head? = some '-' then -(charsNat cs.tail : Int) else (charsNat cs : Int)

/-! ### The `"i:j"` cell keys

`repopulateCaches` and the persistence codec key everything by the
template-literal string `` `${i}:${j}` ``; `loadGameState` and the
spawn path read the coordinates back with `key.split(":").map(Number)`. -/

/-- The cell key `` `${i}:${j}` `` used by `repopulateCaches`, `cacheStates`
and `visitedCells`. -/
def fmtKey (i j : Int) : String := ⟨intChars i ++ ':' :: intChars j⟩

/-- JS `String.prototype.split(":")` on a character list. -/
def splitColon : List Char → List (List Char)
  | [] => [[]]
  | c :: rest =>
    if c = ':' then [] :: splitColon rest
    else
      match splitColon rest with
      | [] => [[c]]
      | g :: gs => (c :: g) :: gs

/-- `key.split(":").map(Number)` destructured to `[i, j]`, as done in
`repopulateCaches` and `loadGameState`.  Shorter splits (where JS would
yield `undefined`/`NaN` coordinates) are unreachable from the states
considered and default to `0`. -/
def parseKey (s : String) : Int × Int :=
  match (splitColon s.data).map charsInt with
  | a :: b :: _ => (a, b)
  | [a] => (a, 0)
  | [] => (0, 0)

/-! ### The `Cache` memento string

`Cache.toMemento` is `JSON.stringify({pointValue, cacheCoins})`;
`fromMemento` is `JSON.parse` followed by reading those two fields.
We model the exact text `JSON.stringify` emits for that object and a
parser specialised to it; any other memento text (on which `JSON.parse`
would throw or produce an object missing the fields) yields `none`. -/

/-- Exact output of `JSON.stringify({pointValue: pv, cacheCoins: ck})`. -/
def mementoStr (pv ck : Int) : String :=
  "\x7b\"pointValue\":" ++ (⟨intChars pv⟩ : String) ++ ",\"cacheCoins\":"
    ++ (⟨intChars ck⟩ : String) ++ "\x7d"

/-- A character that can appear in the decimal form of an integer. -/
def numChar (c : Char) : Bool := c.isDigit || c = '-'

/-- Strip an expected literal from the front of a character list. -/
def dropLit : List Char → List Char → Option (List Char)
  | [], cs => some cs
  | _ :: _, [] => none
  | p :: ps, c :: cs => if c = p then dropLit ps cs else none

/-- Parse `Cache.fromMemento`'s input: succeeds exactly on the shape
`toMemento` emits, recovering `(pointValue, cacheCoins)`.  On any other
text `JSON.parse` throws or the fields come back `undefined`; both are
collapsed to `none` here (only the throwing case is reachable below). -/
def parseMemento (s : String) : Option (Int × Int) :=
  (dropLit "\x7b\"pointValue\":".data s.data).bind fun r1 =>
    (dropLit ",\"cacheCoins\":".data (r1.dropWhile numChar)).bind fun r3 =>
      if (r1.takeWhile numChar).isEmpty || (r3.takeWhile numChar).isEmpty then none
      else if r3.dropWhile numChar = "\x7d".data then
        some (charsInt (r1.takeWhile numChar), charsInt (r3.takeWhile numChar))
      else none

/-! ### Grid coordinate mapper (`toGridCell`, `Board.getCellBounds`)

JS `Math.round(x)` is the integer nearest `x` with ties toward `+∞`,
i.e. `⌊x + 1/2⌋` taken on the exact value of the double `x`.

JS numbers are IEEE-754 binary64 doubles.  A double's value is an exact
rational, and each arithmetic operation rounds its exact result to 53
bits of precision, to nearest, ties to even.  `fpRound` below is that
rounding (the inputs of this development stay far inside the normal
range, so overflow and subnormals do not arise).  The player positions
the cache-window claims evaluate `toGridCell` at are exactly
representable and their products by `1e4` exact, so the exact-rational
`toGridCell` agrees with the double computation there; the bounds
round-trip claim, which is sensitive to the rounding of every step, uses
the bit-accurate `toGridCellFp`/`getCellBounds`/`boundsCenter` chain. -/

/-- `toGridCell` from `main.ts`: latitude/longitude to grid indices,
with the product `latitude * 1e4` taken in exact rational arithmetic
(exact for the inputs at which the window claims evaluate it). -/
def toGridCell (latitude longitude : ℚ) : Int × Int :=
  (round (latitude * 10000), round (longitude * 10000))

/-- `⌊log2 n⌋` by fuelled halving (`fuel ≥ log2 n` suffices). -/
def log2fuel : Nat → Nat → Nat
  | 0, _ => 0
  | fuel + 1, n => if 2 ≤ n then log2fuel fuel (n / 2) + 1 else 0

/-- `⌊log2 n⌋` for `n ≥ 1` (and `0` at `0`). -/
def nlog2 (n : Nat) : Nat := log2fuel n n

/-- `2 ^ k` as a rational, for a possibly negative exponent. -/
def qpow2 (k : Int) : ℚ :=
  if 0 ≤ k then mkRat (2 ^ k.toNat) 1 else mkRat 1 (2 ^ (-k).toNat)

/-- The binade of a positive rational: the `e` with `2^e ≤ s < 2^(e+1)`. -/
def binade (s : ℚ) : Int :=
  let a : Int := nlog2 s.num.natAbs
  let b : Int := nlog2 s.den
  if qpow2 (a - b) ≤ s then a - b else a - b - 1

/-- `⌊q⌋` as floor division of the numerator by the denominator. -/
def qfloor (q : ℚ) : Int := q.num.fdiv q.den

/-- Nearest integer to `r`, ties to even. -/
def roundHalfEven (r : ℚ) : Int :=
  let f := qfloor r
  let frac := r - mkRat f 1
  if mkRat 1 2 < frac then f + 1
  else if frac < mkRat 1 2 then f
  else if f % 2 = 0 then f else f + 1

/-- IEEE-754 binary64 rounding of an exact rational: the significand
`s / 2^(e-52) ∈ [2^52, 2^53)` is rounded to nearest, ties to even, and
scaled back.  Every double operation `x ⊕ y` of the source is modelled
as `fpRound` of the exact result. -/
def fpRound (q : ℚ) : ℚ :=
  if q = 0 then 0
  else
    let s := if q < 0 then -q else q
    let e := binade s
    let ulp := qpow2 (e - 52)
    let m := roundHalfEven (s / ulp)
    let r := mkRat m 1 * ulp
    if q < 0 then -r else r

/-- `Board.getCellBounds`: south-west and north-east corners
`[i / 1e4, j / 1e4]` and `[(i+1) / 1e4, (j+1) / 1e4]`, each JS division
one correctly rounded double operation. -/
def getCellBounds (i j : Int) : (ℚ × ℚ) × (ℚ × ℚ) :=
  ((fpRound (mkRat i 10000), fpRound (mkRat j 10000)),
   (fpRound (mkRat (i + 1) 10000), fpRound (mkRat (j + 1) 10000)))

/-- Center of a bounding rectangle: leaflet `LatLngBounds.getCenter`
computes `(sw + ne) / 2` per coordinate; the addition and the halving
each round as double operations. -/
def boundsCenter (b : (ℚ × ℚ) × (ℚ × ℚ)) : ℚ × ℚ :=
  (fpRound (fpRound (b.1.1 + b.2.1) / 2), fpRound (fpRound (b.1.2 + b.2.2) / 2))

/-- `toGridCell` bit-accurately: the product `latitude * 1e4` (the
literal `1e4` is exactly representable) rounds as a double, and
`Math.round` takes the nearest integer, ties toward `+∞`, of the exact
value of that double. -/
def toGridCellFp (latitude longitude : ℚ) : Int × Int :=
  (qfloor (fpRound (latitude * 10000) + mkRat 1 2),
   qfloor (fpRound (longitude * 10000) + mkRat 1 2))

/-! ### The `Cache` class -/

/-- Mutable economic state of one cache (`class Cache` in `main.ts`). -/
structure Cache where
  i : Int
  j : Int
  pointValue : Int
  cacheCoins : Int
deriving DecidableEq

/-- The seed string `[i, j, "initialValue"].toString()` used by the
`Cache` constructor. -/
def initialSeed (i j : Int) : String :=
  ⟨intChars i ++ ',' :: (intChars j ++ ",initialValue".data)⟩

/-- The `Cache` constructor.  `luckFn` stands for the deterministic
randomness source `luck` imported from `src/luck.ts`.  Modelled from the
spec: `src/luck.ts` is not part of the sources provided, and per §4.1 it
is a pure, total, deterministic map from seed strings to `[0,1)`; every
result below is parametric in it. -/
def Cache.create (luckFn : String → ℚ) (i j : Int) : Cache :=
  { i := i, j := j, pointValue := ⌊luckFn (initialSeed i j) * 100⌋, cacheCoins := 0 }

/-- `Cache.toMemento`: `JSON.stringify({pointValue, cacheCoins})`. -/
def Cache.toMemento (c : Cache) : String := mementoStr c.pointValue c.cacheCoins

/-- `Cache.fromMemento`: `JSON.parse` of the memento and overwrite of the
two mutable fields; `none` models `JSON.parse` throwing. -/
def Cache.fromMemento (c : Cache) (m : String) : Option Cache :=
  (parseMemento m).map fun pc => { c with pointValue := pc.1, cacheCoins := pc.2 }

/-! ### JS `Map` / `Set` as insertion-ordered association lists -/

/-- JS `Map.prototype.get`. -/
def mapGet {α : Type} : List (String × α) → String → Option α
  | [], _ => none
  | (k, v) :: t, key => if k = key then some v else mapGet t key

/-- JS `Map.prototype.set`: overwrite in place, or append a new entry
(JS Maps preserve the original insertion position on overwrite). -/
def mapSet {α : Type} : List (String × α) → String → α → List (String × α)
  | [], key, v => [(key, v)]
  | (k, w) :: t, key, v => if k = key then (key, v) :: t else (k, w) :: mapSet t key v

/-- JS `Set.prototype.add`: append if not already present. -/
def setAdd (l : List String) (k : String) : List String :=
  if k ∈ l then l else l ++ [k]

/-! ### Game state (the module-level mutable variables of `main.ts`)

`cacheRenderers` keeps only the set of keys that currently have a live
`CacheRenderer`; the renderer holds a non-owning reference to the `Cache`
object in `cacheStates`, so cache state is always read through the
`cacheStates` map (this models the JS aliasing of the shared object). -/

structure GameState where
  playerPosition : ℚ × ℚ
  playerPath : List (ℚ × ℚ)
  cacheStates : List (String × Cache)
  cacheRenderers : List String
  visitedCells : List String
  playerCoins : Int
  coinsAvailableForDeposit : Int
deriving DecidableEq

/-- The initial values of the module-level variables in `main.ts`. -/
def initState : GameState :=
  { playerPosition := (36.98949379578401, -122.06277128548504),
    playerPath := [],
    cacheStates := [],
    cacheRenderers := [],
    visitedCells := [],
    playerCoins := 0,
    coinsAvailableForDeposit := 0 }

/-- `NEIGHBORHOOD_SIZE`: the tile visibility radius. -/
def NEIGHBORHOOD_SIZE : Nat := 8

/-- `CACHE_SPAWN_PROBABILITY`. -/
def CACHE_SPAWN_PROBABILITY : ℚ := 1 / 10

/-! ### Visibility window (`Board.getCellsNearPoint` + `repopulateCaches`) -/

/-- Loop offsets `-r .. r`, in iteration order. -/
def offsets (r : Nat) : List Int :=
  (List.range (2 * r + 1)).map fun (k : Nat) => (k : Int) - (r : Int)

/-- The `"i:j"` keys of `getCellsNearPoint`, in JS iteration order
(outer `i` loop, inner `j` loop); these are pairwise distinct, so the
JS `Set` built from them has the same elements in the same order. -/
def visibleCellKeys (r : Nat) (oi oj : Int) : List String :=
  (offsets r).flatMap fun di => (offsets r).map fun dj => fmtKey (oi + di) (oj + dj)

/-- The final step of the `visibleCells.forEach` body: if a cache exists
for the key and has no live renderer, draw it (`CacheRenderer.drawCache`). -/
def drawIfNeeded (s : GameState) (key : String) (cache : Option Cache) : GameState :=
  if cache.isSome && !(s.cacheRenderers.contains key) then
    { s with cacheRenderers := s.cacheRenderers ++ [key] }
  else s

/-- One iteration of the `visibleCells.forEach` body of `repopulateCaches`.
`extra key` models `localStorage.getItem(cacheKey) != null` (the six
persistence keys are never of the form `"i:j"`, and the game never writes
per-cell keys, so in an ordinary run this is constantly `false`; theorems
are parametric in it).  `rng` is the stream of `Math.random()` results and
the `Nat` component counts how many have been consumed. -/
def stepCell (luckFn : String → ℚ) (extra : String → Bool) (rng : Nat → ℚ)
    (p : GameState × Nat) (key : String) : GameState × Nat :=
  let s := p.1
  let cache := mapGet s.cacheStates key
  let isVisited := s.visitedCells.contains key || extra key
  if isVisited then
    (drawIfNeeded s key cache, p.2)
  else
    let s1 := { s with visitedCells := setAdd s.visitedCells key }
    match cache with
    | some c => (drawIfNeeded s1 key (some c), p.2)
    | none =>
      if rng p.2 < CACHE_SPAWN_PROBABILITY then
        let c := Cache.create luckFn (parseKey key).1 (parseKey key).2
        (drawIfNeeded { s1 with cacheStates := mapSet s1.cacheStates key c } key (some c),
          p.2 + 1)
      else (drawIfNeeded s1 key none, p.2 + 1)

/-- `repopulateCaches`: remove renderers for keys that left the window,
then run the spawn/draw pass over every visible key. -/
def repopulateCaches (luckFn : String → ℚ) (extra : String → Bool) (rng : Nat → ℚ)
    (s : GameState) (n : Nat) : GameState × Nat :=
  let o := toGridCell s.playerPosition.1 s.playerPosition.2
  let visible := visibleCellKeys NEIGHBORHOOD_SIZE o.1 o.2
  let s1 := { s with cacheRenderers := s.cacheRenderers.filter fun k => visible.contains k }
  visible.foldl (stepCell luckFn extra rng) (s1, n)

/-! ### Player actions -/

/-- `movePlayer(dx, dy)`: shift position, append to the path, then
`repopulateCaches()` (the subsequent `saveGameState()` is the pure
function `saveGameState` below applied to the result). -/
def movePlayer (luckFn : String → ℚ) (extra : String → Bool) (rng : Nat → ℚ)
    (dx dy : ℚ) (s : GameState) : GameState :=
  let pos := (s.playerPosition.1 + dy, s.playerPosition.2 + dx)
  (repopulateCaches luckFn extra rng
    { s with playerPosition := pos, playerPath := s.playerPath ++ [pos] } 0).1

/-- The geolocation callback in `toggleGeolocation`: set the position
absolutely, append to the path, then `repopulateCaches()`. -/
def moveTo (luckFn : String → ℚ) (extra : String → Bool) (rng : Nat → ℚ)
    (lat lng : ℚ) (s : GameState) : GameState :=
  (repopulateCaches luckFn extra rng
    { s with playerPosition := (lat, lng), playerPath := s.playerPath ++ [(lat, lng)] } 0).1

/-- The `#collect` click handler of `CacheRenderer.createCachePopup`: if
the cache's `pointValue` is positive, decrement it and increment both
player counters.  The `Bool` reports whether the guarded branch ran. -/
def collectCoin (s : GameState) (key : String) : GameState × Bool :=
  match mapGet s.cacheStates key with
  | none => (s, false)
  | some c =>
    if 0 < c.pointValue then
      ({ s with cacheStates := mapSet s.cacheStates key { c with pointValue := c.pointValue - 1 },
                playerCoins := s.playerCoins + 1,
                coinsAvailableForDeposit := s.coinsAvailableForDeposit + 1 }, true)
    else (s, false)

/-- The `#deposit` click handler: if `coinsAvailableForDeposit` is
positive, decrement it and increment the cache's `cacheCoins`. -/
def depositCoin (s : GameState) (key : String) : GameState × Bool :=
  match mapGet s.cacheStates key with
  | none => (s, false)
  | some c =>
    if 0 < s.coinsAvailableForDeposit then
      ({ s with cacheStates := mapSet s.cacheStates key { c with cacheCoins := c.cacheCoins + 1 },
                coinsAvailableForDeposit := s.coinsAvailableForDeposit - 1 }, true)
    else (s, false)

/-- External events the core reacts to.  Each movement event carries the
`Math.random()` values its `repopulateCaches` call will draw. -/
inductive Act where
  | move (dx dy : ℚ) (rng : Nat → ℚ)
  | moveTo (lat lng : ℚ) (rng : Nat → ℚ)
  | collect (key : String)
  | deposit (key : String)

/-- Apply one event to the game state. -/
def applyAct (luckFn : String → ℚ) (extra : String → Bool) (s : GameState) : Act → GameState
  | .move dx dy rng => movePlayer luckFn extra rng dx dy s
  | .moveTo lat lng rng => moveTo luckFn extra rng lat lng s
  | .collect key => (collectCoin s key).1
  | .deposit key => (depositCoin s key).1

/-- Run a sequence of events. -/
def runActs (luckFn : String → ℚ) (extra : String → Bool)
    (acts : List Act) (s : GameState) : GameState :=
  acts.foldl (applyAct luckFn extra) s

/-- Number of successful collects from the cache at `key` along a run. -/
def collectedFrom (luckFn : String → ℚ) (extra : String → Bool) :
    List Act → GameState → String → Nat
  | [], _, _ => 0
  | a :: as, s, key =>
    (match a with
     | .collect k => if k = key && (collectCoin s k).2 then 1 else 0
     | _ => 0) + collectedFrom luckFn extra as (applyAct luckFn extra s a) key

/-- Number of successful collects (from any cache) along a run. -/
def totalCollected (luckFn : String → ℚ) (extra : String → Bool) :
    List Act → GameState → Nat
  | [], _ => 0
  | a :: as, s =>
    (match a with
     | .collect k => if (collectCoin s k).2 then 1 else 0
     | _ => 0) + totalCollected luckFn extra as (applyAct luckFn extra s a)

/-- Number of successful deposits (to any cache) along a run. -/
def totalDeposited (luckFn : String → ℚ) (extra : String → Bool) :
    List Act → GameState → Nat
  | [], _ => 0
  | a :: as, s =>
    (match a with
     | .deposit k => if (depositCoin s k).2 then 1 else 0
     | _ => 0) + totalDeposited luckFn extra as (applyAct luckFn extra s a)

/-! ### Persistence codec (`saveGameState` / `loadGameState`)

localStorage holds strings.  The counters are stored via `toString` and
read with `parseInt`, so they are modelled as raw strings; the other
four keys hold `JSON.stringify` output and are modelled at the JSON
value level (stringify/parse of a JSON value is the identity at this
level; `JSON.parse` throwing on non-JSON text corresponds to a blob
that is no `Json` value at all, and a wrongly-shaped `Json` reproduces
every unguarded shape error of `loadGameState`).  The nested cache
mementos stay at the string level via `mementoStr`/`parseMemento`. -/

/-- JSON values. -/
inductive Json where
  | null
  | bool (b : Bool)
  | num (q : ℚ)
  | str (s : String)
  | arr (elems : List Json)
  | obj (fields : List (String × Json))

/-- Structural sameness of JSON values; on the payloads that occur in a
saved blob (strings, numbers) this is exactly JS SameValueZero equality,
the test `Set` membership uses. -/
def Json.beq : Json → Json → Bool
  | .null, .null => true
  | .bool a, .bool b => a == b
  | .num a, .num b => a == b
  | .str a, .str b => a == b
  | .arr [], .arr [] => true
  | .arr (x :: xs), .arr (y :: ys) => Json.beq x y && Json.beq (.arr xs) (.arr ys)
  | .obj [], .obj [] => true
  | .obj ((k, x) :: xs), .obj ((k', y) :: ys) =>
    k = k' && Json.beq x y && Json.beq (.obj xs) (.obj ys)
  | _, _ => false

/-- `new Set(array)` for parsed JSON arrays: keep the first occurrence of
each element, in order. -/
def jsSetOfList (l : List Json) : List Json :=
  l.foldl (fun acc x => if acc.any fun y => Json.beq y x then acc else acc ++ [x]) []

/-- The six localStorage keys `saveGameState` writes and `loadGameState`
reads; `none` is an absent key. -/
structure Storage where
  playerPosition : Option Json := none
  playerCoins : Option String := none
  coinsAvailableForDeposit : Option String := none
  visitedCells : Option Json := none
  cacheStates : Option Json := none
  playerPath : Option Json := none

/-- `saveGameState` from `main.ts`. -/
def saveGameState (s : GameState) : Storage :=
  { playerPosition := some (.obj [("lat", .num s.playerPosition.1),
                                  ("lng", .num s.playerPosition.2)]),
    playerCoins := some ⟨intChars s.playerCoins⟩,
    coinsAvailableForDeposit := some ⟨intChars s.coinsAvailableForDeposit⟩,
    visitedCells := some (.arr (s.visitedCells.map .str)),
    cacheStates := some (.arr (s.cacheStates.map fun kc =>
      .arr [.str kc.1, .str kc.2.toMemento])),
    playerPath := some (.arr (s.playerPath.map fun p => .arr [.num p.1, .num p.2])) }

/-- A JS number that is either an integer or `NaN` (what `parseInt` can
produce on the persisted counter strings). -/
inductive JsInt where
  | int (n : Int)
  | nan
deriving DecidableEq

/-- JS `parseInt(s, 10)` restricted to the inputs that matter here: an
optional leading minus followed by a longest digit run; no digits means
`NaN`. -/
def parseIntJs (s : String) : JsInt :=
  if s.data.head? = some '-' then
    let ds := s.data.tail.takeWhile Char.isDigit
    if ds.isEmpty then .nan else .int (-(charsNat ds : Int))
  else
    let ds := s.data.takeWhile Char.isDigit
    if ds.isEmpty then .nan else .int (charsNat ds)

/-- The runtime error `loadGameState` can die of: any uncaught JS
`TypeError`/`SyntaxError` thrown while destructuring the parsed blob
(there is no try/catch in `loadGameState`). -/
inductive LoadErr where
  | typeError
deriving DecidableEq

/-- The values `loadGameState` leaves in the module-level variables it
touches (renderers are not part of persistence). -/
structure LoadedState where
  playerPosition : ℚ × ℚ
  playerCoins : JsInt
  coinsAvailableForDeposit : JsInt
  visitedCells : List Json
  cacheStates : List (String × Cache)
  playerPath : List (ℚ × ℚ)

/-- leaflet's `latLng` factory (external contract): accepts an object
with numeric `lat`/`lng` fields or an array of at least two numbers, and
throws on anything else. -/
def toLatLng : Json → Except LoadErr (ℚ × ℚ)
  | .obj fields =>
    match mapGet fields "lat", mapGet fields "lng" with
    | some (.num a), some (.num b) => .ok (a, b)
    | _, _ => .error .typeError
  | .arr (.num a :: .num b :: _) => .ok (a, b)
  | _ => .error .typeError

/-- `JSON.parse(loadedPath).map((coords) => leaflet.latLng(coords))`. -/
def loadPath : List Json → Except LoadErr (List (ℚ × ℚ))
  | [] => .ok []
  | e :: rest =>
    match toLatLng e with
    | .error er => .error er
    | .ok p =>
      match loadPath rest with
      | .error er => .error er
      | .ok ps => .ok (p :: ps)

/-- One iteration of the `forEach(([key, memento]) => ...)` loop of
`loadGameState`: destructure the entry, rebuild a `Cache` from the key's
coordinates and overwrite its fields from the memento.  Elements on
which the JS code would throw (non-array entries, non-string keys,
unparseable mementos) are errors. -/
def loadCacheEntry (luckFn : String → ℚ) : Json → Except LoadErr (String × Cache)
  | .arr (.str key :: .str memento :: _) =>
    let ij := parseKey key
    match (Cache.create luckFn ij.1 ij.2).fromMemento memento with
    | some c => .ok (key, c)
    | none => .error .typeError
  | _ => .error .typeError

/-- All cache entries, left to right. -/
def loadCaches (luckFn : String → ℚ) : List Json → Except LoadErr (List (String × Cache))
  | [] => .ok []
  | e :: rest =>
    match loadCacheEntry luckFn e with
    | .error er => .error er
    | .ok kc =>
      match loadCaches luckFn rest with
      | .error er => .error er
      | .ok t => .ok (kc :: t)

/-- The `playerPosition` section of `loadGameState`: when the key is
present, `leaflet.latLng(JSON.parse(...))`, else keep the initial value. -/
def loadPosSection : Option Json → Except LoadErr (ℚ × ℚ)
  | none => .ok initState.playerPosition
  | some v => toLatLng v

/-- The `playerCoins` / `coinsAvailableForDeposit` sections: `parseInt`
when a non-empty string is stored (JS string truthiness), else keep `0`. -/
def loadCoinsSection : Option String → JsInt
  | none => .int 0
  | some str => if str = "" then .int 0 else parseIntJs str

/-- The `visitedCells` section: `new Set(JSON.parse(...))`; a non-array
value makes the `Set` constructor throw.  (A JSON string is also
iterable in JS; that branch is unreachable from saved blobs and is
collapsed into the error case.) -/
def loadVisitedSection : Option Json → Except LoadErr (List Json)
  | none => .ok []
  | some (.arr es) => .ok (jsSetOfList es)
  | some _ => .error .typeError

/-- The `cacheStates` section: parse, then `forEach` rebuild of the map. -/
def loadCachesSection (luckFn : String → ℚ) :
    Option Json → Except LoadErr (List (String × Cache))
  | none => .ok []
  | some (.arr es) =>
    (loadCaches luckFn es).map fun entries =>
      entries.foldl (fun m kc => mapSet m kc.1 kc.2) []
  | some _ => .error .typeError

/-- The `playerPath` section: `JSON.parse(...).map(leaflet.latLng)`;
`.map` on a non-array throws. -/
def loadPathSection : Option Json → Except LoadErr (List (ℚ × ℚ))
  | none => .ok []
  | some (.arr es) => loadPath es
  | some _ => .error .typeError

/-- `loadGameState` from `main.ts`: each section overwrites one
module-level variable when its key is present, keeping the initial value
otherwise; there is no try/catch, so the first shape error aborts the
whole load (the page crashes on startup).  The counter sections run
before the fallible ones in the source and never throw, so the
sequencing below preserves the source's error behaviour. -/
def loadGameState (luckFn : String → ℚ) (st : Storage) : Except LoadErr LoadedState :=
  match loadPosSection st.playerPosition with
  | .error e => .error e
  | .ok pos =>
    match loadVisitedSection st.visitedCells with
    | .error e => .error e
    | .ok visited =>
      match loadCachesSection luckFn st.cacheStates with
      | .error e => .error e
      | .ok caches =>
        match loadPathSection st.playerPath with
        | .error e => .error e
        | .ok path =>
          .ok { playerPosition := pos,
                playerCoins := loadCoinsSection st.playerCoins,
                coinsAvailableForDeposit := loadCoinsSection st.coinsAvailableForDeposit,
                visitedCells := visited,
                cacheStates := caches,
                playerPath := path }

/-- The persisted view of a game state: exactly the components
`saveGameState` writes, in the representation `loadGameState` restores. -/
def persistedOf (s : GameState) : LoadedState :=
  { playerPosition := s.playerPosition,
    playerCoins := .int s.playerCoins,
    coinsAvailableForDeposit := .int s.coinsAvailableForDeposit,
    visitedCells := s.visitedCells.map .str,
    cacheStates := s.cacheStates,
    playerPath := s.playerPath }

/-- An empty localStorage (fresh browser profile, or right after reset). -/
def emptyStorage : Storage := {}

/-- A corrupt blob: `playerPath` holds the JSON text `"0"`.  JS parses it
to the number `0` and then calls `.map` on it, which throws a
`TypeError`. -/
def corruptStorage : Storage := { playerPath := some (.num 0) }

/-! ### Reachable-state invariants used by the persistence round trip -/

/-- Invariants every reachable state satisfies: the visited set has no
duplicates (it is a JS `Set`), the cache map has no duplicate keys (it
is a JS `Map`), and every cache is stored under the key built from its
own coordinates. -/
def GoodState (s : GameState) : Prop :=
  s.visitedCells.Nodup ∧
  (s.cacheStates.map Prod.fst).Nodup ∧
  ∀ kc ∈ s.cacheStates, kc.1 = fmtKey kc.2.i kc.2.j

/-- The keys of the active visibility window around the player's current
position (`board.getCellsNearPoint(playerPosition)` in `repopulateCaches`). -/
def visibleKeysOf (s : GameState) : List String :=
  visibleCellKeys NEIGHBORHOOD_SIZE
    (toGridCell s.playerPosition.1 s.playerPosition.2).1
    (toGridCell s.playerPosition.1 s.playerPosition.2).2

/-- A concrete state for exercising the window reconciliation: the
player sits at the origin, caches exist at `"0:0"` (in the window) and
`"100:100"` (far outside it), and only the far one currently has a
renderer. -/
def wStateC9 : GameState :=
  { initState with
    playerPosition := (0, 0),
    cacheStates := [(fmtKey 0 0, ⟨0, 0, 5, 0⟩), (fmtKey 100 100, ⟨100, 100, 7, 0⟩)],
    cacheRenderers := [fmtKey 100 100] }

/-- The state `moveTo 0 0` produces from the initial state before its
`repopulateCaches` call: the player at the origin with the move recorded
on the path. -/
def wStateC1 : GameState :=
  { initState with
    playerPosition := (0, 0),
    playerPath := initState.playerPath ++ [(0, 0)] }

theorem charDigit_digitChar {d : Nat} (h : d < 10) : charDigit (digitChar d) = d := by
  interval_cases d <;> decide

theorem digitChar_isDigit {d : Nat} (h : d < 10) : (digitChar d).isDigit = true := by
  interval_cases d <;> decide

theorem charsNat_natChars (n : Nat) : charsNat (natChars n) = n := by
  unfold natChars charsNat
  by_cases h : n = 0
  · subst h; decide
  · simp only [h, if_false]
    rw [List.map_reverse, List.reverse_reverse, List.map_map]
    have : (Nat.digits 10 n).map (charDigit ∘ digitChar) = Nat.digits 10 n := by
      rw [show Nat.digits 10 n = (Nat.digits 10 n).map id by simp]
      rw [List.map_map]
      apply List.map_congr_left
      intro d hd
      simp only [Function.comp_apply, id]
      exact charDigit_digitChar (Nat.digits_lt_base (by norm_num) (by simpa using hd))
    rw [this, Nat.ofDigits_digits]

theorem mem_natChars_isDigit {n : Nat} {c : Char} (h : c ∈ natChars n) :
    c.isDigit = true := by
  unfold natChars at h
  by_cases h0 : n = 0
  · subst h0; simp at h; subst h; decide
  · simp only [h0, if_false, List.mem_reverse, List.mem_map] at h
    obtain ⟨d, hd, rfl⟩ := h
    exact digitChar_isDigit (Nat.digits_lt_base (by norm_num) hd)

theorem natChars_ne_nil (n : Nat) : natChars n ≠ [] := by
  unfold natChars
  by_cases h0 : n = 0
  · simp [h0]
  · simp only [h0, if_false]
    simp [Nat.digits_ne_nil_iff_ne_zero, h0]

theorem charsInt_intChars (i : Int) : charsInt (intChars i) = i := by
  unfold intChars
  by_cases h : i < 0
  · simp only [h, if_true]
    show -(charsNat (natChars i.natAbs) : Int) = i
    rw [charsNat_natChars]
    omega
  · simp only [h, if_false]
    have hne := natChars_ne_nil i.toNat
    have hhead : (natChars i.toNat).head? ≠ some '-' := by
      match hm : natChars i.toNat with
      | [] => exact absurd hm hne
      | c :: rest =>
        have hc : c.isDigit = true := by
          apply mem_natChars_isDigit (n := i.toNat); rw [hm]; exact List.mem_cons_self _ _
        simp only [List.head?_cons]
        intro he
        injection he with he
        subst he
        simp [Char.isDigit] at hc
    unfold charsInt
    rw [if_neg hhead, charsNat_natChars]
    omega

theorem mem_intChars_num {i : Int} {c : Char} (h : c ∈ intChars i) :
    c.isDigit = true ∨ c = '-' := by
  unfold intChars at h
  by_cases hi : i < 0
  · simp only [hi, if_true, List.mem_cons] at h
    rcases h with rfl | h
    · exact Or.inr rfl
    · exact Or.inl (mem_natChars_isDigit h)
  · simp only [hi, if_false] at h
    exact Or.inl (mem_natChars_isDigit h)

theorem splitColon_no_colon {l : List Char} (h : ∀ c ∈ l, c ≠ ':') :
    splitColon l = [l] := by
  induction l with
  | nil => rfl
  | cons c rest ih =>
    have hc : c ≠ ':' := h c (List.mem_cons_self _ _)
    have hr := ih (fun x hx => h x (List.mem_cons_of_mem _ hx))
    unfold splitColon
    rw [if_neg hc, hr]

theorem splitColon_append {a b : List Char} (h : ∀ c ∈ a, c ≠ ':') :
    splitColon (a ++ ':' :: b) = a :: splitColon b := by
  induction a with
  | nil => simp [splitColon]
  | cons c rest ih =>
    have hc : c ≠ ':' := h c (List.mem_cons_self _ _)
    have hr := ih (fun x hx => h x (List.mem_cons_of_mem _ hx))
    show splitColon (c :: (rest ++ ':' :: b)) = (c :: rest) :: splitColon b
    simp only [splitColon]
    rw [if_neg hc, hr]

theorem mem_intChars_ne_colon {i : Int} {c : Char} (h : c ∈ intChars i) : c ≠ ':' := by
  rcases mem_intChars_num h with hd | rfl
  · intro he; subst he; simp [Char.isDigit] at hd
  · decide

theorem parseKey_fmtKey (i j : Int) : parseKey (fmtKey i j) = (i, j) := by
  unfold parseKey fmtKey
  show (match (splitColon (intChars i ++ ':' :: intChars j)).map charsInt with
        | a :: b :: _ => (a, b)
        | [a] => (a, 0)
        | [] => ((0 : Int), (0 : Int))) = (i, j)
  rw [splitColon_append (fun c hc => mem_intChars_ne_colon hc),
      splitColon_no_colon (fun c hc => mem_intChars_ne_colon hc)]
  simp [charsInt_intChars]

theorem fmtKey_injEq {i j i' j' : Int} (h : fmtKey i j = fmtKey i' j') :
    i = i' ∧ j = j' := by
  have h1 := parseKey_fmtKey i j
  have h2 := parseKey_fmtKey i' j'
  rw [h, h2] at h1
  exact ⟨(Prod.mk.injEq _ _ _ _ ▸ h1.symm).1, (Prod.mk.injEq _ _ _ _ ▸ h1.symm).2⟩

theorem dropLit_append (p r : List Char) : dropLit p (p ++ r) = some r := by
  induction p with
  | nil => rfl
  | cons c ps ih => simpa [dropLit] using ih

theorem takeWhile_append_stop {p : Char → Bool} (a : List Char) (b : Char)
    (r : List Char) (ha : ∀ c ∈ a, p c = true) (hb : p b = false) :
    (a ++ b :: r).takeWhile p = a ∧ (a ++ b :: r).dropWhile p = b :: r := by
  induction a with
  | nil => simp [List.takeWhile, List.dropWhile, hb]
  | cons c cs ih =>
    have hc : p c = true := ha c (List.mem_cons_self _ _)
    have := ih (fun x hx => ha x (List.mem_cons_of_mem _ hx))
    constructor
    · show ((c :: (cs ++ b :: r)).takeWhile p) = c :: cs
      rw [List.takeWhile_cons, if_pos hc, this.1]
    · show ((c :: (cs ++ b :: r)).dropWhile p) = b :: r
      rw [List.dropWhile_cons, if_pos hc, this.2]

theorem mem_intChars_numChar {i : Int} {c : Char} (h : c ∈ intChars i) :
    numChar c = true := by
  rcases mem_intChars_num h with hd | rfl
  · simp [numChar, hd]
  · decide

theorem intChars_ne_nil (i : Int) : intChars i ≠ [] := by
  unfold intChars
  split <;> simp [natChars_ne_nil]

theorem parseMemento_mementoStr (pv ck : Int) :
    parseMemento (mementoStr pv ck) = some (pv, ck) := by
  have hdata : (mementoStr pv ck).data
      = "\x7b\"pointValue\":".data ++ (intChars pv ++
        (',' :: '\"' :: 'c' :: 'a' :: 'c' :: 'h' :: 'e' :: 'C' :: 'o' :: 'i' :: 'n' :: 's' :: '\"' :: ':' ::
          (intChars ck ++ ['\x7d']))) := by
    simp [mementoStr, String.data_append]
  have h1 := takeWhile_append_stop (p := numChar) (intChars pv) ','
    ('\"' :: 'c' :: 'a' :: 'c' :: 'h' :: 'e' :: 'C' :: 'o' :: 'i' :: 'n' :: 's' :: '\"' :: ':' ::
      (intChars ck ++ ['\x7d']))
    (fun c hc => mem_intChars_numChar hc) (by decide)
  have h2 := takeWhile_append_stop (p := numChar) (intChars ck) '\x7d' []
    (fun c hc => mem_intChars_numChar hc) (by decide)
  have hmid : (',' :: '\"' :: 'c' :: 'a' :: 'c' :: 'h' :: 'e' :: 'C' :: 'o' :: 'i' :: 'n' :: 's' :: '\"' :: ':' ::
      (intChars ck ++ ['\x7d'])) = ",\"cacheCoins\":".data ++ (intChars ck ++ ['\x7d']) := rfl
  have hemp : ∀ i : Int, (intChars i).isEmpty = false := by
    intro i
    cases hm : intChars i with
    | nil => exact absurd hm (intChars_ne_nil i)
    | cons a t => rfl
  unfold parseMemento
  rw [hdata, dropLit_append, Option.some_bind', h1.1, h1.2, hmid, dropLit_append,
    Option.some_bind', h2.1, h2.2]
  rw [if_neg (by simp [hemp])]
  rw [if_pos rfl, charsInt_intChars, charsInt_intChars]

/-! ### Lemmas about the map/set primitives -/

theorem mapGet_mapSet_self {α : Type} (l : List (String × α)) (k : String) (v : α) :
    mapGet (mapSet l k v) k = some v := by
  induction l with
  | nil => simp [mapSet, mapGet]
  | cons kv t ih =>
    obtain ⟨k', w⟩ := kv
    by_cases h : k' = k
    · subst h; simp [mapSet, mapGet]
    · simp [mapSet, mapGet, h, ih]

theorem mapGet_mapSet_ne {α : Type} (l : List (String × α)) {k k' : String}
    (h : k' ≠ k) (v : α) : mapGet (mapSet l k v) k' = mapGet l k' := by
  induction l with
  | nil => simp [mapSet, mapGet, Ne.symm h]
  | cons kv t ih =>
    obtain ⟨k₀, w⟩ := kv
    by_cases h0 : k₀ = k
    · subst h0
      simp only [mapSet, if_pos rfl]
      simp [mapGet, Ne.symm h]
    · simp only [mapSet, if_neg h0]
      by_cases h1 : k₀ = k'
      · simp [mapGet, h1]
      · simp [mapGet, h1, ih]

theorem mem_setAdd_iff {l : List String} {k k' : String} :
    k' ∈ setAdd l k ↔ k' ∈ l ∨ k' = k := by
  unfold setAdd
  by_cases hk : k ∈ l
  · rw [if_pos hk]
    exact ⟨Or.inl, fun h => h.elim id fun he => he ▸ hk⟩
  · rw [if_neg hk]
    simp

theorem self_mem_setAdd (l : List String) (k : String) : k ∈ setAdd l k :=
  mem_setAdd_iff.mpr (Or.inr rfl)

theorem setAdd_nodup {l : List String} (k : String) (h : l.Nodup) :
    (setAdd l k).Nodup := by
  unfold setAdd
  by_cases hk : k ∈ l
  · rw [if_pos hk]; exact h
  · rw [if_neg hk]
    simp [List.nodup_append, h, hk]

theorem contains_iff {l : List String} {k : String} : l.contains k = true ↔ k ∈ l :=
  ⟨List.mem_of_elem_eq_true, List.elem_eq_true_of_mem⟩

/-! ### Lemmas about `drawIfNeeded` and `stepCell` -/

@[simp] theorem drawIfNeeded_cacheStates (s : GameState) (key : String) (c : Option Cache) :
    (drawIfNeeded s key c).cacheStates = s.cacheStates := by
  unfold drawIfNeeded; split <;> rfl

@[simp] theorem drawIfNeeded_visitedCells (s : GameState) (key : String) (c : Option Cache) :
    (drawIfNeeded s key c).visitedCells = s.visitedCells := by
  unfold drawIfNeeded; split <;> rfl

@[simp] theorem drawIfNeeded_playerCoins (s : GameState) (key : String) (c : Option Cache) :
    (drawIfNeeded s key c).playerCoins = s.playerCoins := by
  unfold drawIfNeeded; split <;> rfl

@[simp] theorem drawIfNeeded_avail (s : GameState) (key : String) (c : Option Cache) :
    (drawIfNeeded s key c).coinsAvailableForDeposit = s.coinsAvailableForDeposit := by
  unfold drawIfNeeded; split <;> rfl

@[simp] theorem drawIfNeeded_playerPosition (s : GameState) (key : String) (c : Option Cache) :
    (drawIfNeeded s key c).playerPosition = s.playerPosition := by
  unfold drawIfNeeded; split <;> rfl

@[simp] theorem drawIfNeeded_playerPath (s : GameState) (key : String) (c : Option Cache) :
    (drawIfNeeded s key c).playerPath = s.playerPath := by
  unfold drawIfNeeded; split <;> rfl

theorem mem_drawIfNeeded_of_ne {s : GameState} {key k' : String} (c : Option Cache)
    (h : k' ≠ key) :
    (k' ∈ (drawIfNeeded s key c).cacheRenderers ↔ k' ∈ s.cacheRenderers) := by
  unfold drawIfNeeded
  split
  · simp [h]
  · exact Iff.rfl

theorem mem_drawIfNeeded_self {s : GameState} {key : String} {c : Option Cache}
    (h : c.isSome = true) : key ∈ (drawIfNeeded s key c).cacheRenderers := by
  unfold drawIfNeeded
  split
  · simp
  · next hcond =>
    simp only [h, Bool.true_and, Bool.not_eq_true'] at hcond
    cases hb : s.cacheRenderers.contains key with
    | true => exact contains_iff.mp hb
    | false => exact absurd hb hcond

theorem stepCell_fields (luckFn : String → ℚ) (extra : String → Bool) (rng : Nat → ℚ)
    (p : GameState × Nat) (key : String) :
    (stepCell luckFn extra rng p key).1.playerCoins = p.1.playerCoins ∧
    (stepCell luckFn extra rng p key).1.coinsAvailableForDeposit
      = p.1.coinsAvailableForDeposit ∧
    (stepCell luckFn extra rng p key).1.playerPosition = p.1.playerPosition ∧
    (stepCell luckFn extra rng p key).1.playerPath = p.1.playerPath := by
  unfold stepCell
  dsimp only
  split
  · simp
  · split
    · simp
    · split <;> simp

theorem stepCell_untouched (luckFn : String → ℚ) (extra : String → Bool) (rng : Nat → ℚ)
    (p : GameState × Nat) (key k : String) (h : k ≠ key) :
    mapGet (stepCell luckFn extra rng p key).1.cacheStates k = mapGet p.1.cacheStates k ∧
    (k ∈ (stepCell luckFn extra rng p key).1.visitedCells ↔ k ∈ p.1.visitedCells) ∧
    (k ∈ (stepCell luckFn extra rng p key).1.cacheRenderers ↔ k ∈ p.1.cacheRenderers) := by
  unfold stepCell
  dsimp only
  split
  · exact ⟨by simp, by simp, mem_drawIfNeeded_of_ne _ h⟩
  · split
    · exact ⟨by simp, by simp [mem_setAdd_iff, h],
        (mem_drawIfNeeded_of_ne _ h).trans (by simp)⟩
    · split
      · refine ⟨?_, by simp [mem_setAdd_iff, h],
          (mem_drawIfNeeded_of_ne _ h).trans (by simp)⟩
        rw [drawIfNeeded_cacheStates]
        dsimp only
        exact mapGet_mapSet_ne _ h _
      · exact ⟨by simp, by simp [mem_setAdd_iff, h],
          (mem_drawIfNeeded_of_ne _ h).trans (by simp)⟩

theorem foldl_stepCell_fields (luckFn : String → ℚ) (extra : String → Bool) (rng : Nat → ℚ)
    (L : List String) (p : GameState × Nat) :
    (L.foldl (stepCell luckFn extra rng) p).1.playerCoins = p.1.playerCoins ∧
    (L.foldl (stepCell luckFn extra rng) p).1.coinsAvailableForDeposit
      = p.1.coinsAvailableForDeposit ∧
    (L.foldl (stepCell luckFn extra rng) p).1.playerPosition = p.1.playerPosition ∧
    (L.foldl (stepCell luckFn extra rng) p).1.playerPath = p.1.playerPath := by
  induction L generalizing p with
  | nil => exact ⟨rfl, rfl, rfl, rfl⟩
  | cons a t ih =>
    rw [List.foldl_cons]
    have h1 := stepCell_fields luckFn extra rng p a
    have h2 := ih (stepCell luckFn extra rng p a)
    exact ⟨h2.1.trans h1.1, h2.2.1.trans h1.2.1, h2.2.2.1.trans h1.2.2.1,
      h2.2.2.2.trans h1.2.2.2⟩

theorem foldl_stepCell_untouched (luckFn : String → ℚ) (extra : String → Bool)
    (rng : Nat → ℚ) (L : List String) (p : GameState × Nat) (k : String) (h : k ∉ L) :
    mapGet (L.foldl (stepCell luckFn extra rng) p).1.cacheStates k
      = mapGet p.1.cacheStates k ∧
    (k ∈ (L.foldl (stepCell luckFn extra rng) p).1.visitedCells ↔ k ∈ p.1.visitedCells) ∧
    (k ∈ (L.foldl (stepCell luckFn extra rng) p).1.cacheRenderers
      ↔ k ∈ p.1.cacheRenderers) := by
  induction L generalizing p with
  | nil => exact ⟨rfl, Iff.rfl, Iff.rfl⟩
  | cons a t ih =>
    rw [List.foldl_cons]
    have hka : k ≠ a := fun he => h (he ▸ List.mem_cons_self a t)
    have hkt : k ∉ t := fun ht => h (List.mem_cons_of_mem a ht)
    have h1 := stepCell_untouched luckFn extra rng p a k hka
    have h2 := ih (stepCell luckFn extra rng p a) hkt
    exact ⟨h2.1.trans h1.1, h2.2.1.trans h1.2.1, h2.2.2.trans h1.2.2⟩

theorem stepCell_of_visited (luckFn : String → ℚ) (extra : String → Bool) (rng : Nat → ℚ)
    (p : GameState × Nat) (key : String)
    (h : key ∈ p.1.visitedCells ∨ extra key = true) :
    stepCell luckFn extra rng p key
      = (drawIfNeeded p.1 key (mapGet p.1.cacheStates key), p.2) := by
  have hcond : (p.1.visitedCells.contains key || extra key) = true := by
    rcases h with h | h
    · rw [contains_iff.mpr h, Bool.true_or]
    · rw [h, Bool.or_true]
  unfold stepCell
  dsimp only
  rw [if_pos hcond]

theorem stepCell_of_present (luckFn : String → ℚ) (extra : String → Bool) (rng : Nat → ℚ)
    (p : GameState × Nat) (key : String) (c : Cache)
    (hc : mapGet p.1.cacheStates key = some c) :
    (stepCell luckFn extra rng p key).1.cacheStates = p.1.cacheStates ∧
    key ∈ (stepCell luckFn extra rng p key).1.cacheRenderers := by
  unfold stepCell
  dsimp only
  split
  · refine ⟨by simp, ?_⟩
    rw [hc]
    exact mem_drawIfNeeded_self rfl
  · rw [hc]
    dsimp only
    exact ⟨by simp, mem_drawIfNeeded_self rfl⟩

theorem stepCell_of_fresh (luckFn : String → ℚ) (extra : String → Bool) (rng : Nat → ℚ)
    (p : GameState × Nat) (key : String)
    (hv : key ∉ p.1.visitedCells) (he : extra key = false)
    (hc : mapGet p.1.cacheStates key = none) :
    mapGet (stepCell luckFn extra rng p key).1.cacheStates key
      = (if rng p.2 < CACHE_SPAWN_PROBABILITY
         then some (Cache.create luckFn (parseKey key).1 (parseKey key).2) else none) ∧
    key ∈ (stepCell luckFn extra rng p key).1.visitedCells := by
  have hcf : p.1.visitedCells.contains key = false := by
    cases hb : p.1.visitedCells.contains key with
    | false => rfl
    | true => exact absurd (contains_iff.mp hb) hv
  have hcond : ¬((p.1.visitedCells.contains key || extra key) = true) := by
    rw [hcf, he]
    simp
  unfold stepCell
  dsimp only
  rw [if_neg hcond, hc]
  dsimp only
  split
  · constructor
    · rw [drawIfNeeded_cacheStates]
      dsimp only
      rw [mapGet_mapSet_self]
    · rw [drawIfNeeded_visitedCells]
      dsimp only
      exact self_mem_setAdd _ _
  · constructor
    · rw [drawIfNeeded_cacheStates]
      dsimp only
      rw [hc]
    · rw [drawIfNeeded_visitedCells]
      dsimp only
      exact self_mem_setAdd _ _

/-! ### The visibility window -/

theorem offsets_nodup (r : Nat) : (offsets r).Nodup := by
  unfold offsets
  refine List.Nodup.map (fun a b hab => ?_) (List.nodup_range _)
  simp only at hab
  omega

theorem mem_offsets_of (r : Nat) (k : Int) (h1 : -(r : Int) ≤ k) (h2 : k ≤ r) :
    k ∈ offsets r := by
  unfold offsets
  rw [List.mem_map]
  refine ⟨(k + r).toNat, ?_, ?_⟩
  · rw [List.mem_range]; omega
  · omega

theorem visibleCellKeys_nodup (r : Nat) (oi oj : Int) : (visibleCellKeys r oi oj).Nodup := by
  unfold visibleCellKeys
  rw [List.nodup_flatMap]
  constructor
  · intro di _
    refine List.Nodup.map (fun a b hab => ?_) (offsets_nodup r)
    obtain ⟨_, h2⟩ := fmtKey_injEq hab
    omega
  · have hn : (offsets r).Pairwise (· ≠ ·) := offsets_nodup r
    refine hn.imp ?_
    intro a b hab key hka hkb
    rw [List.mem_map] at hka hkb
    obtain ⟨x, _, hx⟩ := hka
    obtain ⟨y, _, hy⟩ := hkb
    rw [← hx] at hy
    obtain ⟨h1, _⟩ := fmtKey_injEq hy
    exact hab (by omega)

theorem fmtKey_mem_visibleCellKeys (r : Nat) (oi oj di dj : Int)
    (h1 : -(r : Int) ≤ di) (h2 : di ≤ r) (h3 : -(r : Int) ≤ dj) (h4 : dj ≤ r) :
    fmtKey (oi + di) (oj + dj) ∈ visibleCellKeys r oi oj := by
  unfold visibleCellKeys
  rw [List.mem_flatMap]
  exact ⟨di, mem_offsets_of r di h1 h2,
    List.mem_map.mpr ⟨dj, mem_offsets_of r dj h3 h4, rfl⟩⟩

theorem mem_visibleCellKeys_fmt {r : Nat} {oi oj : Int} {key : String}
    (h : key ∈ visibleCellKeys r oi oj) : ∃ a b : Int, key = fmtKey a b := by
  unfold visibleCellKeys at h
  rw [List.mem_flatMap] at h
  obtain ⟨di, _, hm⟩ := h
  rw [List.mem_map] at hm
  obtain ⟨dj, _, rfl⟩ := hm
  exact ⟨_, _, rfl⟩

/-! ### Behaviour of the `forEach` pass, key by key -/

theorem foldl_stepCell_visited_key (luckFn : String → ℚ) (extra : String → Bool)
    (rng : Nat → ℚ) (L : List String) (p : GameState × Nat) (key : String)
    (h : key ∈ p.1.visitedCells) :
    mapGet (L.foldl (stepCell luckFn extra rng) p).1.cacheStates key
      = mapGet p.1.cacheStates key ∧
    key ∈ (L.foldl (stepCell luckFn extra rng) p).1.visitedCells := by
  induction L generalizing p with
  | nil => exact ⟨rfl, h⟩
  | cons a t ih =>
    rw [List.foldl_cons]
    by_cases ha : key = a
    · subst ha
      have hstep := stepCell_of_visited luckFn extra rng p key (Or.inl h)
      have hrec := ih (stepCell luckFn extra rng p key) (by rw [hstep]; simpa using h)
      refine ⟨hrec.1.trans ?_, hrec.2⟩
      rw [hstep]
      simp
    · have hstep := stepCell_untouched luckFn extra rng p a key ha
      have hrec := ih (stepCell luckFn extra rng p a) (hstep.2.1.mpr h)
      exact ⟨hrec.1.trans hstep.1, hrec.2⟩

theorem foldl_stepCell_present (luckFn : String → ℚ) (extra : String → Bool)
    (rng : Nat → ℚ) (L : List String) (p : GameState × Nat) (key : String) (c : Cache)
    (hc : mapGet p.1.cacheStates key = some c) :
    mapGet (L.foldl (stepCell luckFn extra rng) p).1.cacheStates key = some c ∧
    ((key ∈ L ∨ key ∈ p.1.cacheRenderers)
      → key ∈ (L.foldl (stepCell luckFn extra rng) p).1.cacheRenderers) := by
  induction L generalizing p with
  | nil =>
    exact ⟨hc, fun h => h.elim (fun hk => absurd hk (List.not_mem_nil key)) id⟩
  | cons a t ih =>
    rw [List.foldl_cons]
    by_cases ha : key = a
    · subst ha
      have hstep := stepCell_of_present luckFn extra rng p key c hc
      have hrec := ih (stepCell luckFn extra rng p key) (by rw [hstep.1]; exact hc)
      exact ⟨hrec.1, fun _ => hrec.2 (Or.inr hstep.2)⟩
    · have hstep := stepCell_untouched luckFn extra rng p a key ha
      have hrec := ih (stepCell luckFn extra rng p a) (by rw [hstep.1]; exact hc)
      refine ⟨hrec.1, fun h => hrec.2 ?_⟩
      rcases h with h | h
      · rcases List.mem_cons.mp h with h | h
        · exact absurd h ha
        · exact Or.inl h
      · exact Or.inr (hstep.2.2.mpr h)

theorem foldl_stepCell_fresh (luckFn : String → ℚ) (extra : String → Bool) (c : ℚ)
    (L : List String) (hL : L.Nodup) (p : GameState × Nat) (key : String)
    (hmem : key ∈ L) (hv : key ∉ p.1.visitedCells) (he : extra key = false)
    (hc : mapGet p.1.cacheStates key = none) :
    mapGet (L.foldl (stepCell luckFn extra fun _ => c) p).1.cacheStates key
      = (if c < CACHE_SPAWN_PROBABILITY
         then some (Cache.create luckFn (parseKey key).1 (parseKey key).2) else none) := by
  induction L generalizing p with
  | nil => cases hmem
  | cons a t ih =>
    rw [List.foldl_cons]
    by_cases ha : key = a
    · subst ha
      have hkt : key ∉ t := (List.nodup_cons.mp hL).1
      have hstep := stepCell_of_fresh luckFn extra (fun _ => c) p key hv he hc
      have hafter := foldl_stepCell_untouched luckFn extra (fun _ => c) t
        (stepCell luckFn extra (fun _ => c) p key) key hkt
      rw [hafter.1, hstep.1]
    · have hna : key ∈ t := (List.mem_cons.mp hmem).resolve_left ha
      have hstep := stepCell_untouched luckFn extra (fun _ => c) p a key ha
      exact ih (List.nodup_cons.mp hL).2 (stepCell luckFn extra (fun _ => c) p a) hna
        (fun hm => hv (hstep.2.1.mp hm)) (by rw [hstep.1]; exact hc)

/-! ### `repopulateCaches`, assembled -/

theorem repopulate_fields (luckFn : String → ℚ) (extra : String → Bool) (rng : Nat → ℚ)
    (s : GameState) (n : Nat) :
    (repopulateCaches luckFn extra rng s n).1.playerCoins = s.playerCoins ∧
    (repopulateCaches luckFn extra rng s n).1.coinsAvailableForDeposit
      = s.coinsAvailableForDeposit ∧
    (repopulateCaches luckFn extra rng s n).1.playerPosition = s.playerPosition ∧
    (repopulateCaches luckFn extra rng s n).1.playerPath = s.playerPath := by
  unfold repopulateCaches
  dsimp only
  exact foldl_stepCell_fields luckFn extra rng _ _

theorem repopulate_visited_key (luckFn : String → ℚ) (extra : String → Bool)
    (rng : Nat → ℚ) (s : GameState) (n : Nat) (key : String)
    (h : key ∈ s.visitedCells) :
    mapGet (repopulateCaches luckFn extra rng s n).1.cacheStates key
      = mapGet s.cacheStates key ∧
    key ∈ (repopulateCaches luckFn extra rng s n).1.visitedCells := by
  unfold repopulateCaches
  dsimp only
  exact foldl_stepCell_visited_key luckFn extra rng _ _ key h

theorem repopulate_out_of_window (luckFn : String → ℚ) (extra : String → Bool)
    (rng : Nat → ℚ) (s : GameState) (n : Nat) (key : String)
    (hout : key ∉ visibleCellKeys NEIGHBORHOOD_SIZE
        (toGridCell s.playerPosition.1 s.playerPosition.2).1
        (toGridCell s.playerPosition.1 s.playerPosition.2).2) :
    key ∉ (repopulateCaches luckFn extra rng s n).1.cacheRenderers ∧
    mapGet (repopulateCaches luckFn extra rng s n).1.cacheStates key
      = mapGet s.cacheStates key ∧
    (key ∈ (repopulateCaches luckFn extra rng s n).1.visitedCells
      ↔ key ∈ s.visitedCells) := by
  unfold repopulateCaches
  dsimp only
  have hunt := foldl_stepCell_untouched luckFn extra rng
    (visibleCellKeys NEIGHBORHOOD_SIZE
        (toGridCell s.playerPosition.1 s.playerPosition.2).1
        (toGridCell s.playerPosition.1 s.playerPosition.2).2)
    ({ s with cacheRenderers := s.cacheRenderers.filter fun k =>
        (visibleCellKeys NEIGHBORHOOD_SIZE
          (toGridCell s.playerPosition.1 s.playerPosition.2).1
          (toGridCell s.playerPosition.1 s.playerPosition.2).2).contains k }, n)
    key hout
  refine ⟨?_, hunt.1, hunt.2.1⟩
  intro hmem
  have hin := hunt.2.2.mp hmem
  dsimp only at hin
  rw [List.mem_filter] at hin
  exact hout (contains_iff.mp hin.2)

theorem repopulate_in_window_cache (luckFn : String → ℚ) (extra : String → Bool)
    (rng : Nat → ℚ) (s : GameState) (n : Nat) (key : String) (c : Cache)
    (hmem : key ∈ visibleCellKeys NEIGHBORHOOD_SIZE
        (toGridCell s.playerPosition.1 s.playerPosition.2).1
        (toGridCell s.playerPosition.1 s.playerPosition.2).2)
    (hc : mapGet s.cacheStates key = some c) :
    mapGet (repopulateCaches luckFn extra rng s n).1.cacheStates key = some c ∧
    key ∈ (repopulateCaches luckFn extra rng s n).1.cacheRenderers := by
  unfold repopulateCaches
  dsimp only
  have h := foldl_stepCell_present luckFn extra rng
    (visibleCellKeys NEIGHBORHOOD_SIZE
        (toGridCell s.playerPosition.1 s.playerPosition.2).1
        (toGridCell s.playerPosition.1 s.playerPosition.2).2)
    ({ s with cacheRenderers := s.cacheRenderers.filter fun k =>
        (visibleCellKeys NEIGHBORHOOD_SIZE
          (toGridCell s.playerPosition.1 s.playerPosition.2).1
          (toGridCell s.playerPosition.1 s.playerPosition.2).2).contains k }, n)
    key c hc
  exact ⟨h.1, h.2 (Or.inl hmem)⟩

theorem repopulate_keeps_cache (luckFn : String → ℚ) (extra : String → Bool)
    (rng : Nat → ℚ) (s : GameState) (n : Nat) (key : String) (c : Cache)
    (hc : mapGet s.cacheStates key = some c) :
    mapGet (repopulateCaches luckFn extra rng s n).1.cacheStates key = some c := by
  unfold repopulateCaches
  dsimp only
  exact (foldl_stepCell_present luckFn extra rng
    (visibleCellKeys NEIGHBORHOOD_SIZE
        (toGridCell s.playerPosition.1 s.playerPosition.2).1
        (toGridCell s.playerPosition.1 s.playerPosition.2).2)
    ({ s with cacheRenderers := s.cacheRenderers.filter fun k =>
        (visibleCellKeys NEIGHBORHOOD_SIZE
          (toGridCell s.playerPosition.1 s.playerPosition.2).1
          (toGridCell s.playerPosition.1 s.playerPosition.2).2).contains k }, n)
    key c hc).1

theorem repopulate_spawn_const (luckFn : String → ℚ) (extra : String → Bool) (c : ℚ)
    (s : GameState) (n : Nat) (key : String)
    (hmem : key ∈ visibleCellKeys NEIGHBORHOOD_SIZE
        (toGridCell s.playerPosition.1 s.playerPosition.2).1
        (toGridCell s.playerPosition.1 s.playerPosition.2).2)
    (hv : key ∉ s.visitedCells) (he : extra key = false)
    (hc : mapGet s.cacheStates key = none) :
    mapGet (repopulateCaches luckFn extra (fun _ => c) s n).1.cacheStates key
      = (if c < CACHE_SPAWN_PROBABILITY
         then some (Cache.create luckFn (parseKey key).1 (parseKey key).2) else none) := by
  unfold repopulateCaches
  dsimp only
  exact foldl_stepCell_fresh luckFn extra c _ (visibleCellKeys_nodup _ _ _)
    ({ s with cacheRenderers := s.cacheRenderers.filter fun k =>
        (visibleCellKeys NEIGHBORHOOD_SIZE
          (toGridCell s.playerPosition.1 s.playerPosition.2).1
          (toGridCell s.playerPosition.1 s.playerPosition.2).2).contains k }, n)
    key hmem hv he hc

/-! ### Collect / deposit, case by case -/

theorem collectCoin_none {s : GameState} {key : String}
    (hc : mapGet s.cacheStates key = none) : collectCoin s key = (s, false) := by
  unfold collectCoin
  rw [hc]

theorem collectCoin_zero {s : GameState} {key : String} {c : Cache}
    (hc : mapGet s.cacheStates key = some c) (h : ¬0 < c.pointValue) :
    collectCoin s key = (s, false) := by
  unfold collectCoin
  rw [hc]
  dsimp only
  rw [if_neg h]

theorem collectCoin_pos {s : GameState} {key : String} {c : Cache}
    (hc : mapGet s.cacheStates key = some c) (h : 0 < c.pointValue) :
    collectCoin s key
      = ({ s with
          cacheStates := mapSet s.cacheStates key { c with pointValue := c.pointValue - 1 },
          playerCoins := s.playerCoins + 1,
          coinsAvailableForDeposit := s.coinsAvailableForDeposit + 1 }, true) := by
  unfold collectCoin
  rw [hc]
  dsimp only
  rw [if_pos h]

theorem depositCoin_none {s : GameState} {key : String}
    (hc : mapGet s.cacheStates key = none) : depositCoin s key = (s, false) := by
  unfold depositCoin
  rw [hc]

theorem depositCoin_zero {s : GameState} {key : String} {c : Cache}
    (hc : mapGet s.cacheStates key = some c) (h : ¬0 < s.coinsAvailableForDeposit) :
    depositCoin s key = (s, false) := by
  unfold depositCoin
  rw [hc]
  dsimp only
  rw [if_neg h]

theorem depositCoin_pos {s : GameState} {key : String} {c : Cache}
    (hc : mapGet s.cacheStates key = some c) (h : 0 < s.coinsAvailableForDeposit) :
    depositCoin s key
      = ({ s with
          cacheStates := mapSet s.cacheStates key { c with cacheCoins := c.cacheCoins + 1 },
          coinsAvailableForDeposit := s.coinsAvailableForDeposit - 1 }, true) := by
  unfold depositCoin
  rw [hc]
  dsimp only
  rw [if_pos h]

theorem collectCoin_counters (s : GameState) (key : String) :
    (collectCoin s key).1.playerCoins
      = s.playerCoins + (if (collectCoin s key).2 then 1 else 0) ∧
    (collectCoin s key).1.coinsAvailableForDeposit
      = s.coinsAvailableForDeposit + (if (collectCoin s key).2 then 1 else 0) := by
  cases hm : mapGet s.cacheStates key with
  | none => rw [collectCoin_none hm]; simp
  | some c =>
    by_cases h : 0 < c.pointValue
    · rw [collectCoin_pos hm h]; simp
    · rw [collectCoin_zero hm h]; simp

theorem depositCoin_counters (s : GameState) (key : String) :
    (depositCoin s key).1.playerCoins = s.playerCoins ∧
    (depositCoin s key).1.coinsAvailableForDeposit
      = s.coinsAvailableForDeposit - (if (depositCoin s key).2 then 1 else 0) := by
  cases hm : mapGet s.cacheStates key with
  | none => rw [depositCoin_none hm]; simp
  | some c =>
    by_cases h : 0 < s.coinsAvailableForDeposit
    · rw [depositCoin_pos hm h]; simp
    · rw [depositCoin_zero hm h]; simp

/-! ### Runs of events -/

theorem runActs_cons (luckFn : String → ℚ) (extra : String → Bool) (a : Act)
    (t : List Act) (s : GameState) :
    runActs luckFn extra (a :: t) s
      = runActs luckFn extra t (applyAct luckFn extra s a) := rfl

theorem runActs_append (luckFn : String → ℚ) (extra : String → Bool)
    (as bs : List Act) (s : GameState) :
    runActs luckFn extra (as ++ bs) s
      = runActs luckFn extra bs (runActs luckFn extra as s) := by
  unfold runActs
  rw [List.foldl_append]

theorem movePlayer_counters (luckFn : String → ℚ) (extra : String → Bool)
    (rng : Nat → ℚ) (dx dy : ℚ) (s : GameState) :
    (movePlayer luckFn extra rng dx dy s).playerCoins = s.playerCoins ∧
    (movePlayer luckFn extra rng dx dy s).coinsAvailableForDeposit
      = s.coinsAvailableForDeposit := by
  unfold movePlayer
  have h := repopulate_fields luckFn extra rng
    { s with playerPosition := (s.playerPosition.1 + dy, s.playerPosition.2 + dx),
             playerPath := s.playerPath
               ++ [(s.playerPosition.1 + dy, s.playerPosition.2 + dx)] } 0
  exact ⟨h.1, h.2.1⟩

theorem moveTo_counters (luckFn : String → ℚ) (extra : String → Bool)
    (rng : Nat → ℚ) (lat lng : ℚ) (s : GameState) :
    (moveTo luckFn extra rng lat lng s).playerCoins = s.playerCoins ∧
    (moveTo luckFn extra rng lat lng s).coinsAvailableForDeposit
      = s.coinsAvailableForDeposit := by
  unfold moveTo
  have h := repopulate_fields luckFn extra rng
    { s with playerPosition := (lat, lng),
             playerPath := s.playerPath ++ [(lat, lng)] } 0
  exact ⟨h.1, h.2.1⟩

theorem applyAct_counters (luckFn : String → ℚ) (extra : String → Bool)
    (a : Act) (s : GameState) :
    ((applyAct luckFn extra s a).playerCoins = s.playerCoins ∧
     (applyAct luckFn extra s a).coinsAvailableForDeposit
       = s.coinsAvailableForDeposit) ∨
    ((applyAct luckFn extra s a).playerCoins = s.playerCoins + 1 ∧
     (applyAct luckFn extra s a).coinsAvailableForDeposit
       = s.coinsAvailableForDeposit + 1) ∨
    ((applyAct luckFn extra s a).playerCoins = s.playerCoins ∧
     0 < s.coinsAvailableForDeposit ∧
     (applyAct luckFn extra s a).coinsAvailableForDeposit
       = s.coinsAvailableForDeposit - 1) := by
  cases a with
  | move dx dy rng => exact Or.inl (movePlayer_counters luckFn extra rng dx dy s)
  | moveTo lat lng rng => exact Or.inl (moveTo_counters luckFn extra rng lat lng s)
  | collect k =>
    cases hm : mapGet s.cacheStates k with
    | none =>
      refine Or.inl ?_
      show (collectCoin s k).1.playerCoins = _ ∧ (collectCoin s k).1.coinsAvailableForDeposit = _
      rw [collectCoin_none hm]
      exact ⟨rfl, rfl⟩
    | some c =>
      by_cases h : 0 < c.pointValue
      · refine Or.inr (Or.inl ?_)
        show (collectCoin s k).1.playerCoins = _ ∧ (collectCoin s k).1.coinsAvailableForDeposit = _
        rw [collectCoin_pos hm h]
        exact ⟨rfl, rfl⟩
      · refine Or.inl ?_
        show (collectCoin s k).1.playerCoins = _ ∧ (collectCoin s k).1.coinsAvailableForDeposit = _
        rw [collectCoin_zero hm h]
        exact ⟨rfl, rfl⟩
  | deposit k =>
    cases hm : mapGet s.cacheStates k with
    | none =>
      refine Or.inl ?_
      show (depositCoin s k).1.playerCoins = _ ∧ (depositCoin s k).1.coinsAvailableForDeposit = _
      rw [depositCoin_none hm]
      exact ⟨rfl, rfl⟩
    | some c =>
      by_cases h : 0 < s.coinsAvailableForDeposit
      · refine Or.inr (Or.inr ?_)
        refine ⟨?_, h, ?_⟩
        · show (depositCoin s k).1.playerCoins = _
          rw [depositCoin_pos hm h]
        · show (depositCoin s k).1.coinsAvailableForDeposit = _
          rw [depositCoin_pos hm h]
      · refine Or.inl ?_
        show (depositCoin s k).1.playerCoins = _ ∧ (depositCoin s k).1.coinsAvailableForDeposit = _
        rw [depositCoin_zero hm h]
        exact ⟨rfl, rfl⟩

theorem runActs_counters_inv (luckFn : String → ℚ) (extra : String → Bool)
    (acts : List Act) (s : GameState)
    (h1 : 0 ≤ s.coinsAvailableForDeposit)
    (h2 : s.coinsAvailableForDeposit ≤ s.playerCoins) :
    0 ≤ (runActs luckFn extra acts s).coinsAvailableForDeposit ∧
    (runActs luckFn extra acts s).coinsAvailableForDeposit
      ≤ (runActs luckFn extra acts s).playerCoins := by
  induction acts generalizing s with
  | nil => exact ⟨h1, h2⟩
  | cons a t ih =>
    rw [runActs_cons]
    rcases applyAct_counters luckFn extra a s with h | h | h
    · exact ih _ (by omega) (by omega)
    · exact ih _ (by omega) (by omega)
    · exact ih _ (by omega) (by omega)

theorem runActs_coins_mono (luckFn : String → ℚ) (extra : String → Bool)
    (acts : List Act) (s : GameState) :
    s.playerCoins ≤ (runActs luckFn extra acts s).playerCoins := by
  induction acts generalizing s with
  | nil => exact le_refl _
  | cons a t ih =>
    rw [runActs_cons]
    have hs := ih (applyAct luckFn extra s a)
    rcases applyAct_counters luckFn extra a s with h | h | h
    · omega
    · omega
    · omega

theorem movePlayer_keeps_cache (luckFn : String → ℚ) (extra : String → Bool)
    (rng : Nat → ℚ) (dx dy : ℚ) (s : GameState) (key : String) (c : Cache)
    (hc : mapGet s.cacheStates key = some c) :
    mapGet (movePlayer luckFn extra rng dx dy s).cacheStates key = some c := by
  unfold movePlayer
  exact repopulate_keeps_cache luckFn extra rng _ 0 key c hc

theorem moveTo_keeps_cache (luckFn : String → ℚ) (extra : String → Bool)
    (rng : Nat → ℚ) (lat lng : ℚ) (s : GameState) (key : String) (c : Cache)
    (hc : mapGet s.cacheStates key = some c) :
    mapGet (moveTo luckFn extra rng lat lng s).cacheStates key = some c := by
  unfold moveTo
  exact repopulate_keeps_cache luckFn extra rng _ 0 key c hc

theorem totalCollected_cons (luckFn : String → ℚ) (extra : String → Bool)
    (a : Act) (t : List Act) (s : GameState) :
    totalCollected luckFn extra (a :: t) s
      = (match a with
         | .collect k => if (collectCoin s k).2 then 1 else 0
         | _ => 0) + totalCollected luckFn extra t (applyAct luckFn extra s a) := rfl

theorem totalDeposited_cons (luckFn : String → ℚ) (extra : String → Bool)
    (a : Act) (t : List Act) (s : GameState) :
    totalDeposited luckFn extra (a :: t) s
      = (match a with
         | .deposit k => if (depositCoin s k).2 then 1 else 0
         | _ => 0) + totalDeposited luckFn extra t (applyAct luckFn extra s a) := rfl

theorem collectedFrom_cons (luckFn : String → ℚ) (extra : String → Bool)
    (a : Act) (t : List Act) (s : GameState) (key : String) :
    collectedFrom luckFn extra (a :: t) s key
      = (match a with
         | .collect k => if k = key && (collectCoin s k).2 then 1 else 0
         | _ => 0) + collectedFrom luckFn extra t (applyAct luckFn extra s a) key := rfl

theorem runActs_avail_eq (luckFn : String → ℚ) (extra : String → Bool)
    (acts : List Act) (s : GameState) :
    (runActs luckFn extra acts s).coinsAvailableForDeposit
      = s.coinsAvailableForDeposit + (totalCollected luckFn extra acts s : Int)
        - (totalDeposited luckFn extra acts s : Int) := by
  induction acts generalizing s with
  | nil =>
    show s.coinsAvailableForDeposit = _
    simp [totalCollected, totalDeposited]
  | cons a t ih =>
    rw [runActs_cons, ih, totalCollected_cons, totalDeposited_cons]
    cases a with
    | move dx dy rng =>
      have h := (movePlayer_counters luckFn extra rng dx dy s).2
      show _ = s.coinsAvailableForDeposit + ((0 + _ : Nat) : Int) - ((0 + _ : Nat) : Int)
      rw [show applyAct luckFn extra s (Act.move dx dy rng)
            = movePlayer luckFn extra rng dx dy s from rfl, h]
      push_cast
      ring
    | moveTo lat lng rng =>
      have h := (moveTo_counters luckFn extra rng lat lng s).2
      show _ = s.coinsAvailableForDeposit + ((0 + _ : Nat) : Int) - ((0 + _ : Nat) : Int)
      rw [show applyAct luckFn extra s (Act.moveTo lat lng rng)
            = moveTo luckFn extra rng lat lng s from rfl, h]
      push_cast
      ring
    | collect k =>
      have h := (collectCoin_counters s k).2
      show _ = s.coinsAvailableForDeposit
        + (((if (collectCoin s k).2 then 1 else 0) + _ : Nat) : Int)
        - ((0 + _ : Nat) : Int)
      rw [show applyAct luckFn extra s (Act.collect k) = (collectCoin s k).1 from rfl, h]
      cases (collectCoin s k).2 <;> push_cast <;> ring
    | deposit k =>
      have h := (depositCoin_counters s k).2
      show _ = s.coinsAvailableForDeposit + ((0 + _ : Nat) : Int)
        - (((if (depositCoin s k).2 then 1 else 0) + _ : Nat) : Int)
      rw [show applyAct luckFn extra s (Act.deposit k) = (depositCoin s k).1 from rfl, h]
      cases (depositCoin s k).2 <;> push_cast <;> ring

theorem runActs_pointValue (luckFn : String → ℚ) (extra : String → Bool)
    (acts : List Act) (s : GameState) (key : String) (c : Cache)
    (hc : mapGet s.cacheStates key = some c) :
    ∃ c', mapGet (runActs luckFn extra acts s).cacheStates key = some c' ∧
      c'.i = c.i ∧ c'.j = c.j ∧
      c.pointValue = c'.pointValue + (collectedFrom luckFn extra acts s key : Int) := by
  induction acts generalizing s c with
  | nil => exact ⟨c, hc, rfl, rfl, by simp [collectedFrom]⟩
  | cons a t ih =>
    rw [runActs_cons]
    cases a with
    | move dx dy rng =>
      have hstep : applyAct luckFn extra s (Act.move dx dy rng)
          = movePlayer luckFn extra rng dx dy s := rfl
      have hmr : collectedFrom luckFn extra (Act.move dx dy rng :: t) s key
          = 0 + collectedFrom luckFn extra t
              (applyAct luckFn extra s (Act.move dx dy rng)) key := rfl
      rw [hmr]
      obtain ⟨c', h1, h2, h3, h4⟩ := ih (applyAct luckFn extra s (Act.move dx dy rng)) c
        (by rw [hstep]; exact movePlayer_keeps_cache luckFn extra rng dx dy s key c hc)
      exact ⟨c', h1, h2, h3, by push_cast; omega⟩
    | moveTo lat lng rng =>
      have hstep : applyAct luckFn extra s (Act.moveTo lat lng rng)
          = moveTo luckFn extra rng lat lng s := rfl
      have hmr : collectedFrom luckFn extra (Act.moveTo lat lng rng :: t) s key
          = 0 + collectedFrom luckFn extra t
              (applyAct luckFn extra s (Act.moveTo lat lng rng)) key := rfl
      rw [hmr]
      obtain ⟨c', h1, h2, h3, h4⟩ := ih (applyAct luckFn extra s (Act.moveTo lat lng rng)) c
        (by rw [hstep]; exact moveTo_keeps_cache luckFn extra rng lat lng s key c hc)
      exact ⟨c', h1, h2, h3, by push_cast; omega⟩
    | collect k =>
      have hstep : applyAct luckFn extra s (Act.collect k) = (collectCoin s k).1 := rfl
      have hmr : collectedFrom luckFn extra (Act.collect k :: t) s key
          = (if k = key && (collectCoin s k).2 then 1 else 0)
            + collectedFrom luckFn extra t
                (applyAct luckFn extra s (Act.collect k)) key := rfl
      rw [hmr]
      by_cases hk : k = key
      · subst hk
        cases hm : mapGet s.cacheStates k with
        | none => rw [hm] at hc; cases hc
        | some c0 =>
          have hc0 : c0 = c := by rw [hm] at hc; exact Option.some.inj hc
          by_cases hpv : 0 < c0.pointValue
          · have hcc := collectCoin_pos hm hpv
            have hget : mapGet (applyAct luckFn extra s (Act.collect k)).cacheStates k
                = some { c0 with pointValue := c0.pointValue - 1 } := by
              rw [hstep, hcc]
              exact mapGet_mapSet_self _ _ _
            obtain ⟨c', h1, h2, h3, h4⟩ := ih _ _ hget
            refine ⟨c', h1, by rw [h2, ← hc0], by rw [h3, ← hc0], ?_⟩
            rw [show (collectCoin s k).2 = true by rw [hcc], ← hc0]
            simp only [Bool.and_true, decide_true_eq_true]
            simp only [] at h4
            push_cast at h4 ⊢
            omega
          · have hcc := collectCoin_zero hm hpv
            have hget : mapGet (applyAct luckFn extra s (Act.collect k)).cacheStates k
                = some c0 := by
              rw [hstep, hcc]
              exact hm
            obtain ⟨c', h1, h2, h3, h4⟩ := ih _ _ hget
            refine ⟨c', h1, by rw [h2, ← hc0], by rw [h3, ← hc0], ?_⟩
            rw [show (collectCoin s k).2 = false by rw [hcc], ← hc0]
            simp only [Bool.and_false, if_neg Bool.false_ne_true]
            push_cast at h4 ⊢
            omega
      · have hget : mapGet (applyAct luckFn extra s (Act.collect k)).cacheStates key
            = some c := by
          rw [hstep]
          cases hm : mapGet s.cacheStates k with
          | none => rw [collectCoin_none hm]; exact hc
          | some c0 =>
            by_cases hpv : 0 < c0.pointValue
            · rw [collectCoin_pos hm hpv]
              dsimp only
              rw [mapGet_mapSet_ne _ (fun he => hk he.symm) _]
              exact hc
            · rw [collectCoin_zero hm hpv]; exact hc
        obtain ⟨c', h1, h2, h3, h4⟩ := ih _ _ hget
        refine ⟨c', h1, h2, h3, ?_⟩
        have hcond : (decide (k = key) && (collectCoin s k).2) = false := by
          simp [hk]
        rw [show (if k = key && (collectCoin s k).2 then 1 else 0) = 0 by rw [hcond]; rfl]
        push_cast at h4 ⊢
        omega
    | deposit k =>
      have hstep : applyAct luckFn extra s (Act.deposit k) = (depositCoin s k).1 := rfl
      have hmr : collectedFrom luckFn extra (Act.deposit k :: t) s key
          = 0 + collectedFrom luckFn extra t
              (applyAct luckFn extra s (Act.deposit k)) key := rfl
      rw [hmr]
      have hget : ∃ cd : Cache,
          mapGet (applyAct luckFn extra s (Act.deposit k)).cacheStates key = some cd ∧
          cd.i = c.i ∧ cd.j = c.j ∧ cd.pointValue = c.pointValue := by
        rw [hstep]
        cases hm : mapGet s.cacheStates k with
        | none => rw [depositCoin_none hm]; exact ⟨c, hc, rfl, rfl, rfl⟩
        | some c0 =>
          by_cases hav : 0 < s.coinsAvailableForDeposit
          · rw [depositCoin_pos hm hav]
            dsimp only
            by_cases hk : k = key
            · subst hk
              have hc0 : c0 = c := by rw [hm] at hc; exact Option.some.inj hc
              exact ⟨{ c0 with cacheCoins := c0.cacheCoins + 1 },
                mapGet_mapSet_self _ _ _, by rw [hc0], by rw [hc0], by rw [hc0]⟩
            · rw [mapGet_mapSet_ne _ (fun he => hk he.symm) _]
              exact ⟨c, hc, rfl, rfl, rfl⟩
          · rw [depositCoin_zero hm hav]; exact ⟨c, hc, rfl, rfl, rfl⟩
      obtain ⟨cd, hg, hi, hj, hpv⟩ := hget
      obtain ⟨c', h1, h2, h3, h4⟩ := ih _ _ hg
      refine ⟨c', h1, h2.trans hi, h3.trans hj, ?_⟩
      push_cast at h4 ⊢
      omega

theorem mapSet_entry_prop {α : Type} {P : String × α → Prop} {l : List (String × α)}
    {k : String} {v : α} (hl : ∀ kv ∈ l, P kv) (hv : P (k, v)) :
    ∀ kv ∈ mapSet l k v, P kv := by
  induction l with
  | nil => simpa [mapSet] using hv
  | cons kw t ih =>
    obtain ⟨k0, w⟩ := kw
    by_cases h0 : k0 = k
    · subst h0
      simp only [mapSet, if_pos rfl]
      intro kv hkv
      rcases List.mem_cons.mp hkv with rfl | hkv
      · exact hv
      · exact hl kv (List.mem_cons_of_mem _ hkv)
    · simp only [mapSet, if_neg h0]
      intro kv hkv
      rcases List.mem_cons.mp hkv with rfl | hkv
      · exact hl _ (List.mem_cons_self _ _)
      · exact ih (fun kv hkv => hl kv (List.mem_cons_of_mem _ hkv)) kv hkv

theorem mapGet_entry_prop {α : Type} {P : String × α → Prop} {l : List (String × α)}
    {key : String} {v : α} (hl : ∀ kv ∈ l, P kv) (hg : mapGet l key = some v) :
    P (key, v) := by
  induction l with
  | nil => cases hg
  | cons kw t ih =>
    obtain ⟨k0, w⟩ := kw
    by_cases h0 : k0 = key
    · subst h0
      rw [show mapGet ((k0, w) :: t) k0 = some w from by simp [mapGet]] at hg
      injection hg with hg
      subst hg
      exact hl _ (List.mem_cons_self _ _)
    · rw [show mapGet ((k0, w) :: t) key = mapGet t key from by simp [mapGet, h0]] at hg
      exact ih (fun kv hkv => hl kv (List.mem_cons_of_mem _ hkv)) hg

theorem mapSet_keys_of_mem {α : Type} {l : List (String × α)} {k : String} {v : α} :
    ∀ k0 ∈ (mapSet l k v).map Prod.fst, k0 ∈ l.map Prod.fst ∨ k0 = k := by
  induction l with
  | nil => simp [mapSet]
  | cons kw t ih =>
    obtain ⟨k1, w⟩ := kw
    by_cases h1 : k1 = k
    · subst h1
      simp only [mapSet, if_pos rfl]
      intro k0 hk0
      rcases List.mem_cons.mp hk0 with rfl | hk0
      · exact Or.inr rfl
      · exact Or.inl (List.mem_cons_of_mem _ hk0)
    · simp only [mapSet, if_neg h1]
      intro k0 hk0
      rcases List.mem_cons.mp hk0 with rfl | hk0
      · exact Or.inl (List.mem_cons_self _ _)
      · rcases ih k0 hk0 with h | h
        · exact Or.inl (List.mem_cons_of_mem _ h)
        · exact Or.inr h

theorem mapSet_keys_nodup {α : Type} {l : List (String × α)} (k : String) (v : α)
    (h : (l.map Prod.fst).Nodup) : ((mapSet l k v).map Prod.fst).Nodup := by
  induction l with
  | nil => simp [mapSet]
  | cons kw t ih =>
    obtain ⟨k1, w⟩ := kw
    simp only [List.map_cons, List.nodup_cons] at h
    by_cases h1 : k1 = k
    · subst h1
      rw [show mapSet ((k1, w) :: t) k1 v = (k1, v) :: t from by simp [mapSet]]
      simp only [List.map_cons, List.nodup_cons]
      exact h
    · simp only [mapSet, if_neg h1, List.map_cons, List.nodup_cons]
      refine ⟨?_, ih h.2⟩
      intro hmem
      rcases mapSet_keys_of_mem _ hmem with hm | hm
      · exact h.1 hm
      · exact h1 hm

theorem mapSet_append_of_fresh {α : Type} {l : List (String × α)} {k : String} (v : α)
    (h : ∀ kv ∈ l, kv.1 ≠ k) : mapSet l k v = l ++ [(k, v)] := by
  induction l with
  | nil => rfl
  | cons kw t ih =>
    obtain ⟨k1, w⟩ := kw
    have h1 : k1 ≠ k := h _ (List.mem_cons_self _ _)
    simp only [mapSet, if_neg h1, List.cons_append]
    rw [ih (fun kv hkv => h kv (List.mem_cons_of_mem _ hkv))]

theorem stepCell_good (luckFn : String → ℚ) (extra : String → Bool) (rng : Nat → ℚ)
    (p : GameState × Nat) (key : String) (hs : GoodState p.1)
    (hkey : ∃ a b : Int, key = fmtKey a b) : GoodState (stepCell luckFn extra rng p key).1 := by
  obtain ⟨hvn, hkn, hprop⟩ := hs
  unfold stepCell
  dsimp only
  split
  · exact ⟨by simpa using hvn, by simpa using hkn, by simpa using hprop⟩
  · split
    · exact ⟨by simpa using setAdd_nodup key hvn, by simpa using hkn, by simpa using hprop⟩
    · split
      · refine ⟨by simpa using setAdd_nodup key hvn, ?_, ?_⟩
        · rw [drawIfNeeded_cacheStates]
          exact mapSet_keys_nodup key _ hkn
        · rw [drawIfNeeded_cacheStates]
          dsimp only
          refine mapSet_entry_prop hprop ?_
          obtain ⟨a, b, rfl⟩ := hkey
          show fmtKey a b = fmtKey (Cache.create luckFn (parseKey (fmtKey a b)).1
            (parseKey (fmtKey a b)).2).i (Cache.create luckFn (parseKey (fmtKey a b)).1
            (parseKey (fmtKey a b)).2).j
          rw [parseKey_fmtKey]
          rfl
      · exact ⟨by simpa using setAdd_nodup key hvn, by simpa using hkn, by simpa using hprop⟩

theorem foldl_stepCell_good (luckFn : String → ℚ) (extra : String → Bool) (rng : Nat → ℚ)
    (L : List String) (p : GameState × Nat) (hs : GoodState p.1)
    (hL : ∀ key ∈ L, ∃ a b : Int, key = fmtKey a b) :
    GoodState (L.foldl (stepCell luckFn extra rng) p).1 := by
  induction L generalizing p with
  | nil => exact hs
  | cons a t ih =>
    rw [List.foldl_cons]
    exact ih (stepCell luckFn extra rng p a)
      (stepCell_good luckFn extra rng p a hs (hL a (List.mem_cons_self _ _)))
      (fun key hkey => hL key (List.mem_cons_of_mem _ hkey))

theorem repopulate_good (luckFn : String → ℚ) (extra : String → Bool) (rng : Nat → ℚ)
    (s : GameState) (n : Nat) (hs : GoodState s) :
    GoodState (repopulateCaches luckFn extra rng s n).1 := by
  unfold repopulateCaches
  dsimp only
  refine foldl_stepCell_good luckFn extra rng _ _ ?_ ?_
  · exact hs
  · intro key hkey
    exact mem_visibleCellKeys_fmt hkey

theorem applyAct_good (luckFn : String → ℚ) (extra : String → Bool) (a : Act)
    (s : GameState) (hs : GoodState s) : GoodState (applyAct luckFn extra s a) := by
  cases a with
  | move dx dy rng =>
    show GoodState (movePlayer luckFn extra rng dx dy s)
    unfold movePlayer
    exact repopulate_good luckFn extra rng _ 0 ⟨hs.1, hs.2.1, hs.2.2⟩
  | moveTo lat lng rng =>
    show GoodState (moveTo luckFn extra rng lat lng s)
    unfold moveTo
    exact repopulate_good luckFn extra rng _ 0 ⟨hs.1, hs.2.1, hs.2.2⟩
  | collect k =>
    show GoodState (collectCoin s k).1
    cases hm : mapGet s.cacheStates k with
    | none => rw [collectCoin_none hm]; exact hs
    | some c =>
      by_cases hpv : 0 < c.pointValue
      · rw [collectCoin_pos hm hpv]
        refine ⟨hs.1, ?_, ?_⟩
        · exact mapSet_keys_nodup k _ hs.2.1
        · refine mapSet_entry_prop hs.2.2 ?_
          have := mapGet_entry_prop hs.2.2 hm
          simpa using this
      · rw [collectCoin_zero hm hpv]; exact hs
  | deposit k =>
    show GoodState (depositCoin s k).1
    cases hm : mapGet s.cacheStates k with
    | none => rw [depositCoin_none hm]; exact hs
    | some c =>
      by_cases hav : 0 < s.coinsAvailableForDeposit
      · rw [depositCoin_pos hm hav]
        refine ⟨hs.1, ?_, ?_⟩
        · exact mapSet_keys_nodup k _ hs.2.1
        · refine mapSet_entry_prop hs.2.2 ?_
          have := mapGet_entry_prop hs.2.2 hm
          simpa using this
      · rw [depositCoin_zero hm hav]; exact hs

theorem runActs_good (luckFn : String → ℚ) (extra : String → Bool) (acts : List Act)
    (s : GameState) (hs : GoodState s) : GoodState (runActs luckFn extra acts s) := by
  induction acts generalizing s with
  | nil => exact hs
  | cons a t ih => exact ih _ (applyAct_good luckFn extra a s hs)

theorem initState_good : GoodState initState := by
  refine ⟨List.nodup_nil, List.nodup_nil, ?_⟩
  intro kc hkc
  cases hkc

/-! ### Round-trip of the individual persistence sections -/

theorem intStr_ne_empty (i : Int) : (⟨intChars i⟩ : String) ≠ "" := by
  intro h
  exact intChars_ne_nil i (congrArg String.data h)

theorem natChars_head_ne (n : Nat) : (natChars n).head? ≠ some '-' := by
  match hm : natChars n with
  | [] => exact absurd hm (natChars_ne_nil n)
  | c :: rest =>
    have hc : c.isDigit = true := by
      apply mem_natChars_isDigit (n := n)
      rw [hm]
      exact List.mem_cons_self _ _
    simp only [List.head?_cons]
    intro he
    injection he with he
    subst he
    simp [Char.isDigit] at hc

theorem takeWhile_digits_natChars (n : Nat) :
    (natChars n).takeWhile Char.isDigit = natChars n :=
  List.takeWhile_eq_self_iff.mpr fun _ hc => mem_natChars_isDigit hc

theorem natChars_isEmpty (n : Nat) : (natChars n).isEmpty = false := by
  cases hm : natChars n with
  | nil => exact absurd hm (natChars_ne_nil n)
  | cons a t => rfl

theorem parseIntJs_intChars (i : Int) : parseIntJs ⟨intChars i⟩ = .int i := by
  by_cases h : i < 0
  · rw [show intChars i = '-' :: natChars i.natAbs from by unfold intChars; rw [if_pos h]]
    unfold parseIntJs
    dsimp only
    rw [List.head?_cons, if_pos rfl, List.tail_cons, takeWhile_digits_natChars,
      natChars_isEmpty]
    rw [if_neg Bool.false_ne_true, charsNat_natChars]
    show JsInt.int (-(i.natAbs : Int)) = JsInt.int i
    congr 1
    omega
  · rw [show intChars i = natChars i.toNat from by unfold intChars; rw [if_neg h]]
    unfold parseIntJs
    dsimp only
    rw [if_neg (natChars_head_ne i.toNat), takeWhile_digits_natChars, natChars_isEmpty]
    rw [if_neg Bool.false_ne_true, charsNat_natChars]
    show JsInt.int (i.toNat : Int) = JsInt.int i
    congr 1
    omega

theorem loadCoinsSection_save (i : Int) :
    loadCoinsSection (some ⟨intChars i⟩) = .int i := by
  show (if (⟨intChars i⟩ : String) = "" then JsInt.int 0 else parseIntJs ⟨intChars i⟩)
    = JsInt.int i
  rw [if_neg (intStr_ne_empty i), parseIntJs_intChars]

theorem toLatLng_obj (a b : ℚ) :
    toLatLng (.obj [("lat", .num a), ("lng", .num b)]) = .ok (a, b) := rfl

theorem loadPath_save (l : List (ℚ × ℚ)) :
    loadPath (l.map fun p => .arr [.num p.1, .num p.2]) = .ok l := by
  induction l with
  | nil => rfl
  | cons p t ih =>
    show loadPath (Json.arr [.num p.1, .num p.2] :: t.map fun p => .arr [.num p.1, .num p.2])
      = .ok (p :: t)
    unfold loadPath
    rw [show toLatLng (Json.arr [.num p.1, .num p.2]) = .ok (p.1, p.2) from rfl, ih]

theorem fromMemento_toMemento (luckFn : String → ℚ) (c : Cache) :
    (Cache.create luckFn c.i c.j).fromMemento c.toMemento = some c := by
  unfold Cache.fromMemento Cache.toMemento
  rw [parseMemento_mementoStr]
  rfl

theorem loadCacheEntry_save (luckFn : String → ℚ) (c : Cache) :
    loadCacheEntry luckFn (.arr [.str (fmtKey c.i c.j), .str c.toMemento])
      = .ok (fmtKey c.i c.j, c) := by
  unfold loadCacheEntry
  dsimp only
  rw [show (parseKey (fmtKey c.i c.j)).1 = c.i from by rw [parseKey_fmtKey],
      show (parseKey (fmtKey c.i c.j)).2 = c.j from by rw [parseKey_fmtKey],
      fromMemento_toMemento]

theorem loadCaches_save (luckFn : String → ℚ) (l : List (String × Cache))
    (hprop : ∀ kc ∈ l, kc.1 = fmtKey kc.2.i kc.2.j) :
    loadCaches luckFn (l.map fun kc => .arr [.str kc.1, .str kc.2.toMemento]) = .ok l := by
  induction l with
  | nil => rfl
  | cons kc t ih =>
    show loadCaches luckFn (Json.arr [.str kc.1, .str kc.2.toMemento]
        :: t.map fun kc => .arr [.str kc.1, .str kc.2.toMemento]) = .ok (kc :: t)
    unfold loadCaches
    have hk : kc.1 = fmtKey kc.2.i kc.2.j := hprop kc (List.mem_cons_self _ _)
    rw [hk, loadCacheEntry_save luckFn kc.2,
      ih fun kv hkv => hprop kv (List.mem_cons_of_mem _ hkv)]
    rw [← hk]

theorem foldl_mapSet_fresh {α : Type} (l : List (String × α)) :
    ∀ (acc : List (String × α)),
    (∀ kc ∈ l, ∀ kv ∈ acc, kv.1 ≠ kc.1) → (l.map Prod.fst).Nodup →
    l.foldl (fun m kc => mapSet m kc.1 kc.2) acc = acc ++ l := by
  induction l with
  | nil => intro acc _ _; simp
  | cons kc t ih =>
    intro acc hd hn
    rw [List.foldl_cons,
      mapSet_append_of_fresh kc.2 fun kv hkv => hd kc (List.mem_cons_self _ _) kv hkv]
    simp only [List.map_cons, List.nodup_cons] at hn
    rw [ih (acc ++ [(kc.1, kc.2)]) ?_ hn.2]
    · simp
    · intro kv hkv kw hkw
      rcases List.mem_append.mp hkw with hkw | hkw
      · exact hd kv (List.mem_cons_of_mem _ hkv) kw hkw
      · rcases List.mem_cons.mp hkw with rfl | hkw
        · intro he
          exact hn.1 (he ▸ List.mem_map.mpr ⟨kv, hkv, rfl⟩)
        · cases hkw

theorem beq_str_str (a s : String) : Json.beq (.str a) (.str s) = (a == s) := by
  simp [Json.beq]

theorem any_beq_str (acc : List String) (s : String) :
    ((acc.map Json.str).any fun y => Json.beq y (.str s)) = true ↔ s ∈ acc := by
  induction acc with
  | nil => simp
  | cons a t ih =>
    simp only [List.map_cons, List.any_cons, Bool.or_eq_true, ih, beq_str_str]
    constructor
    · intro h
      rcases h with h | h
      · exact (beq_iff_eq.mp h) ▸ List.mem_cons_self _ _
      · exact List.mem_cons_of_mem _ h
    · intro h
      rcases List.mem_cons.mp h with rfl | h
      · exact Or.inl (beq_iff_eq.mpr rfl)
      · exact Or.inr h

theorem jsSetOfList_aux (l : List String) :
    ∀ acc : List String, l.Nodup → (∀ x ∈ l, x ∉ acc) →
    (l.map Json.str).foldl
      (fun a x => if a.any fun y => Json.beq y x then a else a ++ [x])
      (acc.map Json.str) = (acc ++ l).map Json.str := by
  induction l with
  | nil => intro acc _ _; simp
  | cons a t ih =>
    intro acc hnd hdisj
    simp only [List.map_cons, List.foldl_cons]
    have hcond : ((acc.map Json.str).any fun y => Json.beq y (.str a)) = false := by
      cases hb : (acc.map Json.str).any fun y => Json.beq y (.str a) with
      | false => rfl
      | true =>
        exact absurd ((any_beq_str acc a).mp hb) (hdisj a (List.mem_cons_self _ _))
    rw [hcond]
    simp only [Bool.false_eq_true, if_false]
    simp only [List.nodup_cons] at hnd
    rw [show (acc.map Json.str) ++ [Json.str a] = (acc ++ [a]).map Json.str from by simp]
    rw [ih (acc ++ [a]) hnd.2 ?_]
    · simp
    · intro x hx hmem
      rcases List.mem_append.mp hmem with hm | hm
      · exact hdisj x (List.mem_cons_of_mem _ hx) hm
      · rcases List.mem_cons.mp hm with rfl | hm
        · exact hnd.1 hx
        · cases hm

theorem jsSetOfList_strs (l : List String) (h : l.Nodup) :
    jsSetOfList (l.map Json.str) = l.map Json.str := by
  unfold jsSetOfList
  have := jsSetOfList_aux l [] h (by intro x _ hx; cases hx)
  simpa using this

theorem load_save (luckFn : String → ℚ) (s : GameState) (hs : GoodState s) :
    loadGameState luckFn (saveGameState s) = .ok (persistedOf s) := by
  obtain ⟨hvn, hkn, hprop⟩ := hs
  unfold loadGameState saveGameState
  dsimp only
  rw [show loadPosSection (some (Json.obj [("lat", .num s.playerPosition.1),
        ("lng", .num s.playerPosition.2)]))
      = .ok (s.playerPosition.1, s.playerPosition.2) from toLatLng_obj _ _]
  rw [show loadVisitedSection (some (.arr (s.visitedCells.map .str)))
      = .ok (s.visitedCells.map .str) from by
    show Except.ok (jsSetOfList (s.visitedCells.map .str)) = _
    rw [jsSetOfList_strs _ hvn]]
  rw [show loadCachesSection luckFn (some (.arr (s.cacheStates.map fun kc =>
        .arr [.str kc.1, .str kc.2.toMemento]))) = .ok s.cacheStates from by
    show (loadCaches luckFn (s.cacheStates.map fun kc =>
      .arr [.str kc.1, .str kc.2.toMemento])).map
        (fun entries => entries.foldl (fun m kc => mapSet m kc.1 kc.2) []) = _
    rw [loadCaches_save luckFn s.cacheStates hprop]
    show Except.ok (s.cacheStates.foldl (fun m kc => mapSet m kc.1 kc.2) []) = _
    rw [foldl_mapSet_fresh s.cacheStates [] (fun kc _ kv hkv => absurd hkv
      (List.not_mem_nil kv)) hkn]
    rfl]
  rw [show loadPathSection (some (.arr (s.playerPath.map fun p =>
        .arr [.num p.1, .num p.2]))) = .ok s.playerPath from loadPath_save s.playerPath]
  rw [loadCoinsSection_save s.playerCoins, loadCoinsSection_save s.coinsAvailableForDeposit]
  rfl

theorem stepCell_visited_nodup (luckFn : String → ℚ) (extra : String → Bool)
    (rng : Nat → ℚ) (p : GameState × Nat) (key : String)
    (h : p.1.visitedCells.Nodup) : (stepCell luckFn extra rng p key).1.visitedCells.Nodup := by
  unfold stepCell
  dsimp only
  split
  · simpa using h
  · split
    · simpa using setAdd_nodup key h
    · split
      · simpa using setAdd_nodup key h
      · simpa using setAdd_nodup key h

theorem foldl_stepCell_visited_nodup (luckFn : String → ℚ) (extra : String → Bool)
    (rng : Nat → ℚ) (L : List String) (p : GameState × Nat)
    (h : p.1.visitedCells.Nodup) :
    (L.foldl (stepCell luckFn extra rng) p).1.visitedCells.Nodup := by
  induction L generalizing p with
  | nil => exact h
  | cons a t ih =>
    rw [List.foldl_cons]
    exact ih _ (stepCell_visited_nodup luckFn extra rng p a h)

theorem repopulate_visited_nodup (luckFn : String → ℚ) (extra : String → Bool)
    (rng : Nat → ℚ) (s : GameState) (n : Nat) (h : s.visitedCells.Nodup) :
    (repopulateCaches luckFn extra rng s n).1.visitedCells.Nodup := by
  unfold repopulateCaches
  dsimp only
  exact foldl_stepCell_visited_nodup luckFn extra rng _ _ h

/-! ## The specification claims -/

set_option maxRecDepth 100000 in
/-- Claim C3, counterexample: with the bounds corners, their center and
the grid product computed in IEEE-754 double arithmetic exactly as the
program does, the center of the bounding rectangle of cell `(0, 0)`
maps back to `(1, 1)`, not `(0, 0)`: the corners are `0` and the double
nearest `1e-4`, their halved sum times `1e4` rounds to exactly `0.5`,
and `Math.round(0.5) = 1`, so the claimed inverse law fails on the
code. -/
theorem claim_C3_counterexample :
    toGridCellFp (boundsCenter (getCellBounds 0 0)).1
        (boundsCenter (getCellBounds 0 0)).2 ≠ (0, 0) := by
  have h : toGridCellFp (boundsCenter (getCellBounds 0 0)).1
      (boundsCenter (getCellBounds 0 0)).2 = (1, 1) := by
    with_unfolding_all rfl
  rw [h]
  decide

set_option maxRecDepth 100000 in
/-- Claim C3 (amended): the exact-inverse law fails under the program's
double arithmetic, and not uniformly: the center of cell `(0, 0)` maps
back to `(1, 1)` — the exact center value `(i + 1/2) · 1e-4` sits on
the `Math.round` boundary and at `(0, 0)` the doubles hit `0.5`
exactly, which rounds up — while at `(5, 5)` and `(-1000, -1000)`
rounding error lands the product just below the half-integer and the
original `(i, j)` is recovered. -/
theorem claim_C3_amended :
    toGridCellFp (boundsCenter (getCellBounds 0 0)).1
        (boundsCenter (getCellBounds 0 0)).2 = (1, 1) ∧
    toGridCellFp (boundsCenter (getCellBounds 5 5)).1
        (boundsCenter (getCellBounds 5 5)).2 = (5, 5) ∧
    toGridCellFp (boundsCenter (getCellBounds (-1000) (-1000))).1
        (boundsCenter (getCellBounds (-1000) (-1000))).2 = (-1000, -1000) := by
  refine ⟨?_, ?_, ?_⟩ <;> with_unfolding_all rfl

/-- Claim C7: collect on a cache whose `pointValue` is `0` and deposit
with an empty inventory are silent no-ops — the handler's guarded branch
does not run (`false` flag) and the whole state is returned unchanged —
while collect on a positive `pointValue` runs the branch (`true` flag),
decrements that cache's `pointValue` by exactly one and increments both
player counters. -/
theorem claim_C7 (s : GameState) (key : String) (c : Cache)
    (hc : mapGet s.cacheStates key = some c) :
    (c.pointValue = 0 → collectCoin s key = (s, false)) ∧
    (s.coinsAvailableForDeposit = 0 → depositCoin s key = (s, false)) ∧
    (0 < c.pointValue →
      (collectCoin s key).2 = true ∧
      mapGet (collectCoin s key).1.cacheStates key
        = some { c with pointValue := c.pointValue - 1 } ∧
      (collectCoin s key).1.playerCoins = s.playerCoins + 1 ∧
      (collectCoin s key).1.coinsAvailableForDeposit
        = s.coinsAvailableForDeposit + 1) := by
  refine ⟨?_, ?_, ?_⟩
  · intro h
    exact collectCoin_zero hc (by omega)
  · intro h
    exact depositCoin_zero hc (by omega)
  · intro h
    rw [collectCoin_pos hc h]
    exact ⟨rfl, mapGet_mapSet_self _ _ _, rfl, rfl⟩

/-- Claim C7, witness: a concrete state with one empty cache at `"0:0"`
and empty inventory; collect and deposit are both no-ops there. -/
theorem claim_C7_witness :
    mapGet ({ initState with
      cacheStates := [(fmtKey 0 0, ⟨0, 0, 0, 0⟩)] } : GameState).cacheStates (fmtKey 0 0)
      = some ⟨0, 0, 0, 0⟩ ∧
    (0 : Int) = 0 ∧
    collectCoin { initState with cacheStates := [(fmtKey 0 0, ⟨0, 0, 0, 0⟩)] } (fmtKey 0 0)
      = ({ initState with cacheStates := [(fmtKey 0 0, ⟨0, 0, 0, 0⟩)] }, false) ∧
    depositCoin { initState with cacheStates := [(fmtKey 0 0, ⟨0, 0, 0, 0⟩)] } (fmtKey 0 0)
      = ({ initState with cacheStates := [(fmtKey 0 0, ⟨0, 0, 0, 0⟩)] }, false) := by
  have h := claim_C7 { initState with cacheStates := [(fmtKey 0 0, ⟨0, 0, 0, 0⟩)] }
    (fmtKey 0 0) ⟨0, 0, 0, 0⟩ rfl
  exact ⟨rfl, rfl, h.1 rfl, h.2.1 rfl⟩

/-- Claim C10: the program keeps two player counters; in every state
reachable from the initial state, `0 ≤ coinsAvailableForDeposit ≤
playerCoins` and `playerCoins` never decreases as the run continues; a
collect adds one to both counters exactly when its guarded branch runs,
while a deposit never touches `playerCoins` and subtracts one from
`coinsAvailableForDeposit` exactly when its branch runs. -/
theorem claim_C10 (luckFn : String → ℚ) (extra : String → Bool)
    (acts more : List Act) (key : String) :
    0 ≤ (runActs luckFn extra acts initState).coinsAvailableForDeposit ∧
    (runActs luckFn extra acts initState).coinsAvailableForDeposit
      ≤ (runActs luckFn extra acts initState).playerCoins ∧
    (runActs luckFn extra acts initState).playerCoins
      ≤ (runActs luckFn extra (acts ++ more) initState).playerCoins ∧
    (collectCoin (runActs luckFn extra acts initState) key).1.playerCoins
      = (runActs luckFn extra acts initState).playerCoins
        + (if (collectCoin (runActs luckFn extra acts initState) key).2 then 1 else 0) ∧
    (collectCoin (runActs luckFn extra acts initState) key).1.coinsAvailableForDeposit
      = (runActs luckFn extra acts initState).coinsAvailableForDeposit
        + (if (collectCoin (runActs luckFn extra acts initState) key).2 then 1 else 0) ∧
    (depositCoin (runActs luckFn extra acts initState) key).1.playerCoins
      = (runActs luckFn extra acts initState).playerCoins ∧
    (depositCoin (runActs luckFn extra acts initState) key).1.coinsAvailableForDeposit
      = (runActs luckFn extra acts initState).coinsAvailableForDeposit
        - (if (depositCoin (runActs luckFn extra acts initState) key).2 then 1 else 0) := by
  have hinv := runActs_counters_inv luckFn extra acts initState (le_refl 0) (le_refl 0)
  refine ⟨hinv.1, hinv.2, ?_, (collectCoin_counters _ key).1, (collectCoin_counters _ key).2,
    (depositCoin_counters _ key).1, (depositCoin_counters _ key).2⟩
  rw [runActs_append]
  exact runActs_coins_mono luckFn extra more _

/-- Claim C6: coins are conserved.  For any starting state and any event
sequence, each cache's starting `pointValue` equals its final
`pointValue` plus the number of successful collects from it; and when
the run starts with an empty inventory (a freshly spawned world), the
inventory available for deposit always equals total successful collects
minus total successful deposits. -/
theorem claim_C6 (luckFn : String → ℚ) (extra : String → Bool) (acts : List Act)
    (s : GameState) (key : String) (c : Cache)
    (hc : mapGet s.cacheStates key = some c)
    (hfresh : s.coinsAvailableForDeposit = 0) :
    (∃ c', mapGet (runActs luckFn extra acts s).cacheStates key = some c' ∧
      c.pointValue = c'.pointValue + (collectedFrom luckFn extra acts s key : Int)) ∧
    (runActs luckFn extra acts s).coinsAvailableForDeposit
      = (totalCollected luckFn extra acts s : Int)
        - (totalDeposited luckFn extra acts s : Int) := by
  constructor
  · obtain ⟨c', h1, _, _, h4⟩ := runActs_pointValue luckFn extra acts s key c hc
    exact ⟨c', h1, h4⟩
  · rw [runActs_avail_eq, hfresh]
    ring

/-- Claim C6, witness: a fresh world with one cache of `pointValue` 5 at
`"0:0"` and empty inventory, run on one collect action. -/
theorem claim_C6_witness :
    mapGet ({ initState with
        cacheStates := [(fmtKey 0 0, ⟨0, 0, 5, 0⟩)] } : GameState).cacheStates (fmtKey 0 0)
      = some ⟨0, 0, 5, 0⟩ ∧
    ({ initState with
        cacheStates := [(fmtKey 0 0, ⟨0, 0, 5, 0⟩)] } : GameState).coinsAvailableForDeposit
      = 0 ∧
    ((∃ c', mapGet (runActs (fun _ => 0) (fun _ => false) [Act.collect (fmtKey 0 0)]
        { initState with cacheStates := [(fmtKey 0 0, ⟨0, 0, 5, 0⟩)] }).cacheStates
          (fmtKey 0 0) = some c' ∧
      (5 : Int) = c'.pointValue + (collectedFrom (fun _ => 0) (fun _ => false)
        [Act.collect (fmtKey 0 0)]
        { initState with cacheStates := [(fmtKey 0 0, ⟨0, 0, 5, 0⟩)] } (fmtKey 0 0) : Int)) ∧
    (runActs (fun _ => 0) (fun _ => false) [Act.collect (fmtKey 0 0)]
        { initState with
          cacheStates := [(fmtKey 0 0, ⟨0, 0, 5, 0⟩)] }).coinsAvailableForDeposit
      = (totalCollected (fun _ => 0) (fun _ => false) [Act.collect (fmtKey 0 0)]
          { initState with cacheStates := [(fmtKey 0 0, ⟨0, 0, 5, 0⟩)] } : Int)
        - (totalDeposited (fun _ => 0) (fun _ => false) [Act.collect (fmtKey 0 0)]
          { initState with cacheStates := [(fmtKey 0 0, ⟨0, 0, 5, 0⟩)] } : Int)) := by
  refine ⟨rfl, rfl, ?_⟩
  exact claim_C6 (fun _ => 0) (fun _ => false) [Act.collect (fmtKey 0 0)]
    { initState with cacheStates := [(fmtKey 0 0, ⟨0, 0, 5, 0⟩)] }
    (fmtKey 0 0) ⟨0, 0, 5, 0⟩ rfl rfl

theorem mem_offsets_le {r : Nat} {k : Int} (h : k ∈ offsets r) :
    -(r : Int) ≤ k ∧ k ≤ r := by
  unfold offsets at h
  rw [List.mem_map] at h
  obtain ⟨m, hm, heq⟩ := h
  rw [List.mem_range] at hm
  omega

theorem fmtKey_not_mem_visibleCellKeys {r : Nat} {oi oj a b : Int}
    (h : (r : Int) < a - oi ∨ (r : Int) < b - oj ∨ a - oi < -(r : Int)
      ∨ b - oj < -(r : Int)) :
    fmtKey a b ∉ visibleCellKeys r oi oj := by
  intro hmem
  unfold visibleCellKeys at hmem
  rw [List.mem_flatMap] at hmem
  obtain ⟨di, hdi, hm⟩ := hmem
  rw [List.mem_map] at hm
  obtain ⟨dj, hdj, heq⟩ := hm
  obtain ⟨h1, h2⟩ := fmtKey_injEq heq.symm
  have hb1 := mem_offsets_le hdi
  have hb2 := mem_offsets_le hdj
  omega

/-- Claim C4: once a coordinate is in the visited set, a later
player-position update (manual move or geolocation fix, at any position
and with any randomness) leaves whether a cache exists there and its
stored value unchanged, and the coordinate stays visited; moreover the
visited set stays duplicate-free, so a coordinate enters it at most
once. -/
theorem claim_C4 (luckFn : String → ℚ) (extra : String → Bool) (rng : Nat → ℚ)
    (dx dy lat lng : ℚ) (s : GameState) (key : String)
    (h : key ∈ s.visitedCells) :
    (mapGet (movePlayer luckFn extra rng dx dy s).cacheStates key
        = mapGet s.cacheStates key ∧
      key ∈ (movePlayer luckFn extra rng dx dy s).visitedCells) ∧
    (mapGet (moveTo luckFn extra rng lat lng s).cacheStates key
        = mapGet s.cacheStates key ∧
      key ∈ (moveTo luckFn extra rng lat lng s).visitedCells) ∧
    (s.visitedCells.Nodup → (movePlayer luckFn extra rng dx dy s).visitedCells.Nodup) := by
  refine ⟨?_, ?_, ?_⟩
  · unfold movePlayer
    exact repopulate_visited_key luckFn extra rng _ 0 key h
  · unfold moveTo
    exact repopulate_visited_key luckFn extra rng _ 0 key h
  · intro hn
    unfold movePlayer
    exact repopulate_visited_nodup luckFn extra rng _ 0 hn

/-- Claim C4, witness: a state whose visited set already holds `"0:0"`;
a manual move leaves the (absent) cache decision at `"0:0"` untouched. -/
theorem claim_C4_witness :
    (fmtKey 0 0 ∈ ({ initState with
        visitedCells := [fmtKey 0 0] } : GameState).visitedCells) ∧
    mapGet (movePlayer (fun _ => 0) (fun _ => false) (fun _ => 0) 0 0
        { initState with visitedCells := [fmtKey 0 0] }).cacheStates (fmtKey 0 0)
      = mapGet ({ initState with
          visitedCells := [fmtKey 0 0] } : GameState).cacheStates (fmtKey 0 0) ∧
    fmtKey 0 0 ∈ (movePlayer (fun _ => 0) (fun _ => false) (fun _ => 0) 0 0
        { initState with visitedCells := [fmtKey 0 0] }).visitedCells := by
  have h := claim_C4 (fun _ => 0) (fun _ => false) (fun _ => 0) 0 0 0 0
    { initState with visitedCells := [fmtKey 0 0] } (fmtKey 0 0)
    (List.mem_cons_self _ _)
  exact ⟨List.mem_cons_self _ _, h.1.1, h.1.2⟩

/-- Claim C9: on a player-position update, a key that is not in the new
active window only loses its presentation — its renderer is removed
while its cache entry and visited status are unchanged — and a key in
the new window whose cache exists keeps exactly its stored cache state
and gets a live renderer again (rebuilt from the same stored state). -/
theorem claim_C9 (luckFn : String → ℚ) (extra : String → Bool) (rng : Nat → ℚ)
    (s : GameState) (n : Nat) (key : String) (c : Cache) :
    (key ∉ visibleKeysOf s →
      key ∉ (repopulateCaches luckFn extra rng s n).1.cacheRenderers ∧
      mapGet (repopulateCaches luckFn extra rng s n).1.cacheStates key
        = mapGet s.cacheStates key ∧
      (key ∈ (repopulateCaches luckFn extra rng s n).1.visitedCells
        ↔ key ∈ s.visitedCells)) ∧
    (key ∈ visibleKeysOf s → mapGet s.cacheStates key = some c →
      mapGet (repopulateCaches luckFn extra rng s n).1.cacheStates key = some c ∧
      key ∈ (repopulateCaches luckFn extra rng s n).1.cacheRenderers) := by
  constructor
  · intro hout
    exact repopulate_out_of_window luckFn extra rng s n key hout
  · intro hin hc
    exact repopulate_in_window_cache luckFn extra rng s n key c hin hc

theorem visibleKeysOf_wStateC9 : visibleKeysOf wStateC9 = visibleCellKeys NEIGHBORHOOD_SIZE 0 0 := by
  unfold visibleKeysOf wStateC9
  dsimp only
  rw [show toGridCell (0 : ℚ) (0 : ℚ) = ((0 : Int), (0 : Int)) from by
    unfold toGridCell; norm_num]

/-- Claim C9, witness: from `wStateC9`, one `repopulateCaches` pass
removes the out-of-window renderer at `"100:100"` without touching its
cache entry, and rebuilds the renderer for the stored cache at `"0:0"`. -/
theorem claim_C9_witness :
    (fmtKey 100 100 ∉ visibleKeysOf wStateC9) ∧
    (fmtKey 100 100 ∉ (repopulateCaches (fun _ => 0) (fun _ => false) (fun _ => 0)
        wStateC9 0).1.cacheRenderers ∧
      mapGet (repopulateCaches (fun _ => 0) (fun _ => false) (fun _ => 0)
        wStateC9 0).1.cacheStates (fmtKey 100 100)
        = mapGet wStateC9.cacheStates (fmtKey 100 100)) ∧
    (fmtKey 0 0 ∈ visibleKeysOf wStateC9) ∧
    mapGet wStateC9.cacheStates (fmtKey 0 0) = some ⟨0, 0, 5, 0⟩ ∧
    (mapGet (repopulateCaches (fun _ => 0) (fun _ => false) (fun _ => 0)
        wStateC9 0).1.cacheStates (fmtKey 0 0) = some ⟨0, 0, 5, 0⟩ ∧
      fmtKey 0 0 ∈ (repopulateCaches (fun _ => 0) (fun _ => false) (fun _ => 0)
        wStateC9 0).1.cacheRenderers) := by
  have hout : fmtKey 100 100 ∉ visibleKeysOf wStateC9 := by
    rw [visibleKeysOf_wStateC9]
    exact fmtKey_not_mem_visibleCellKeys (Or.inl (by norm_num [NEIGHBORHOOD_SIZE]))
  have hin : fmtKey 0 0 ∈ visibleKeysOf wStateC9 := by
    rw [visibleKeysOf_wStateC9]
    have := fmtKey_mem_visibleCellKeys NEIGHBORHOOD_SIZE 0 0 0 0
      (by norm_num) (by norm_num [NEIGHBORHOOD_SIZE])
      (by norm_num) (by norm_num [NEIGHBORHOOD_SIZE])
    simpa using this
  have h1 := claim_C9 (fun _ => 0) (fun _ => false) (fun _ => 0) wStateC9 0
    (fmtKey 100 100) ⟨0, 0, 5, 0⟩
  have h2 := claim_C9 (fun _ => 0) (fun _ => false) (fun _ => 0) wStateC9 0
    (fmtKey 0 0) ⟨0, 0, 5, 0⟩
  exact ⟨hout, ⟨(h1.1 hout).1, (h1.1 hout).2.1⟩, hin, rfl, h2.2 hin rfl⟩

/-- Claim C2: the persisted form round-trips exactly — for every state
reachable by any event sequence from the initial state (in particular
states with a non-empty path, caches holding deposited coins, and a
non-zero inventory), loading what was saved restores exactly the
persisted components (position, path, both counters, visited set, and
every cache's coordinates, `pointValue` and `cacheCoins`). -/
theorem claim_C2 (luckFn : String → ℚ) (extra : String → Bool) (acts : List Act) :
    loadGameState luckFn (saveGameState (runActs luckFn extra acts initState))
      = .ok (persistedOf (runActs luckFn extra acts initState)) :=
  load_save luckFn _ (runActs_good luckFn extra acts initState initState_good)

/-- Claim C5, counterexample: a persisted blob whose `playerPath` key
holds the JSON text `0` makes `loadGameState` throw (JS calls `.map` on
a number) instead of falling back to the default initial state, so
loading a corrupt blob does fail. -/
theorem claim_C5_counterexample :
    loadGameState (fun _ => 0) corruptStorage = .error .typeError := rfl

/-- Claim C5 (amended): on a missing blob every component initializes to
its default (initial position, empty inventory, empty world); but on a
malformed blob `loadGameState` throws an uncaught error — it does not
fall back to the defaults, and startup crashes. -/
theorem claim_C5_amended (luckFn : String → ℚ) :
    loadGameState luckFn emptyStorage = .ok (persistedOf initState) ∧
    loadGameState luckFn corruptStorage = .error .typeError :=
  ⟨rfl, rfl⟩

theorem wStateC1_grid :
    toGridCell wStateC1.playerPosition.1 wStateC1.playerPosition.2 = (0, 0) := by
  rw [show wStateC1.playerPosition = ((0 : ℚ), (0 : ℚ)) from rfl]
  unfold toGridCell
  norm_num

theorem wStateC1_window (i j : Int) (h1 : -(8 : Int) ≤ i) (h2 : i ≤ 8)
    (h3 : -(8 : Int) ≤ j) (h4 : j ≤ 8) :
    fmtKey i j ∈ visibleCellKeys NEIGHBORHOOD_SIZE
      (toGridCell wStateC1.playerPosition.1 wStateC1.playerPosition.2).1
      (toGridCell wStateC1.playerPosition.1 wStateC1.playerPosition.2).2 := by
  rw [wStateC1_grid]
  have := fmtKey_mem_visibleCellKeys NEIGHBORHOOD_SIZE 0 0 i j
    (by simpa [NEIGHBORHOOD_SIZE] using h1) (by simpa [NEIGHBORHOOD_SIZE] using h2)
    (by simpa [NEIGHBORHOOD_SIZE] using h3) (by simpa [NEIGHBORHOOD_SIZE] using h4)
  simpa using this

theorem moveTo_origin (luckFn : String → ℚ) (extra : String → Bool) (rng : Nat → ℚ) :
    moveTo luckFn extra rng 0 0 initState
      = (repopulateCaches luckFn extra rng wStateC1 0).1 := rfl

/-- Claim C1, counterexample: two runs that both first visit the
coordinate `(-8, -8)` — a single geolocation fix to the origin — but
observe different `Math.random()` streams reach different spawn
decisions: a cache exists there in the first run and not in the second,
so the spawn decision is not a pure function of the coordinate. -/
theorem claim_C1_counterexample :
    mapGet (moveTo (fun _ => 0) (fun _ => false) (fun _ => 5 / 100) 0 0
        initState).cacheStates (fmtKey (-8) (-8))
      ≠ mapGet (moveTo (fun _ => 0) (fun _ => false) (fun _ => 1) 0 0
        initState).cacheStates (fmtKey (-8) (-8)) := by
  have hmem := wStateC1_window (-8) (-8) (by norm_num) (by norm_num) (by norm_num)
    (by norm_num)
  have hA := repopulate_spawn_const (fun _ => 0) (fun _ => false) (5 / 100) wStateC1 0
    (fmtKey (-8) (-8)) hmem (List.not_mem_nil _) rfl rfl
  have hB := repopulate_spawn_const (fun _ => 0) (fun _ => false) 1 wStateC1 0
    (fmtKey (-8) (-8)) hmem (List.not_mem_nil _) rfl rfl
  rw [if_pos (by norm_num [CACHE_SPAWN_PROBABILITY])] at hA
  rw [if_neg (by norm_num [CACHE_SPAWN_PROBABILITY])] at hB
  rw [moveTo_origin, moveTo_origin, hA, hB]
  simp

/-- Claim C1 (amended): the first time a coordinate `(i, j)` in the
window is visited, the spawn decision compares a fresh `Math.random()`
draw — not the deterministic `luck` roll of the coordinate — against
0.10; with a constant stream `c` a cache exists at `(i, j)` iff
`c < 0.10`, and only the spawned cache's initial value is the
deterministic `Cache.create` of the coordinate. -/
theorem claim_C1_amended (luckFn : String → ℚ) (extra : String → Bool) (c : ℚ)
    (s : GameState) (n : Nat) (i j : Int)
    (hmem : fmtKey i j ∈ visibleKeysOf s)
    (hv : fmtKey i j ∉ s.visitedCells)
    (he : extra (fmtKey i j) = false)
    (hc : mapGet s.cacheStates (fmtKey i j) = none) :
    mapGet (repopulateCaches luckFn extra (fun _ => c) s n).1.cacheStates (fmtKey i j)
      = (if c < CACHE_SPAWN_PROBABILITY then some (Cache.create luckFn i j) else none) := by
  have h := repopulate_spawn_const luckFn extra c s n (fmtKey i j) hmem hv he hc
  rw [h]
  simp [parseKey_fmtKey]

/-- Claim C1, witness for the amended statement: the fresh origin cell
`"0:0"` of `wStateC1` with the constant stream `0` spawns a cache. -/
theorem claim_C1_witness :
    (fmtKey 0 0 ∈ visibleKeysOf wStateC1) ∧
    (fmtKey 0 0 ∉ wStateC1.visitedCells) ∧
    ((fun _ : String => false) (fmtKey 0 0) = false) ∧
    (mapGet wStateC1.cacheStates (fmtKey 0 0) = none) ∧
    mapGet (repopulateCaches (fun _ => 0) (fun _ => false) (fun _ => 0)
        wStateC1 0).1.cacheStates (fmtKey 0 0)
      = (if (0 : ℚ) < CACHE_SPAWN_PROBABILITY
         then some (Cache.create (fun _ => 0) 0 0) else none) := by
  have hmem : fmtKey 0 0 ∈ visibleKeysOf wStateC1 := by
    unfold visibleKeysOf
    exact wStateC1_window 0 0 (by norm_num) (by norm_num) (by norm_num) (by norm_num)
  exact ⟨hmem, List.not_mem_nil _, rfl, rfl,
    claim_C1_amended (fun _ => 0) (fun _ => false) 0 wStateC1 0 0 0 hmem
      (List.not_mem_nil _) rfl rfl⟩

/-- Claim C8: a spawned cache at `(i, j)` starts with
`pointValue = floor(luck("i,j,initialValue") * 100)` and
`cacheCoins = 0`; in particular when the initial-value roll of `(0, 0)`
is `0.37` and the spawn stream yields `0.05` (< 0.10), visiting the
origin spawns a cache with `pointValue = 37` and `cacheCoins = 0` at
key `"0:0"`. -/
theorem claim_C8 (luckFn : String → ℚ)
    (h : luckFn "0,0,initialValue" = 37 / 100) :
    (∀ i j : Int, Cache.create luckFn i j =
      { i := i, j := j, pointValue := ⌊luckFn (initialSeed i j) * 100⌋,
        cacheCoins := 0 }) ∧
    mapGet (moveTo luckFn (fun _ => false) (fun _ => 5 / 100) 0 0
        initState).cacheStates (fmtKey 0 0)
      = some { i := 0, j := 0, pointValue := 37, cacheCoins := 0 } := by
  refine ⟨fun i j => rfl, ?_⟩
  have hmem := wStateC1_window 0 0 (by norm_num) (by norm_num) (by norm_num)
    (by norm_num)
  have hA := repopulate_spawn_const luckFn (fun _ => false) (5 / 100) wStateC1 0
    (fmtKey 0 0) hmem (List.not_mem_nil _) rfl rfl
  rw [if_pos (by norm_num [CACHE_SPAWN_PROBABILITY])] at hA
  rw [moveTo_origin, hA]
  have hpk : parseKey (fmtKey 0 0) = ((0 : Int), (0 : Int)) := parseKey_fmtKey 0 0
  rw [hpk]
  have hseed : initialSeed 0 0 = "0,0,initialValue" := rfl
  unfold Cache.create
  rw [hseed, h]
  norm_num

/-- Claim C8, witness: the concrete randomness source assigning `0.37`
to the seed `"0,0,initialValue"` satisfies the hypothesis and spawns a
cache with `pointValue = 37`, `cacheCoins = 0` at the origin. -/
theorem claim_C8_witness :
    ((fun s => if s = "0,0,initialValue" then (37 : ℚ) / 100 else 0)
        "0,0,initialValue" = 37 / 100) ∧
    ((∀ i j : Int,
        Cache.create
          (fun s => if s = "0,0,initialValue" then (37 : ℚ) / 100 else 0) i j =
        { i := i, j := j,
          pointValue :=
            ⌊(fun s => if s = "0,0,initialValue" then (37 : ℚ) / 100 else 0)
                (initialSeed i j) * 100⌋,
          cacheCoins := 0 }) ∧
      mapGet (moveTo
          (fun s => if s = "0,0,initialValue" then (37 : ℚ) / 100 else 0)
          (fun _ => false) (fun _ => 5 / 100) 0 0
          initState).cacheStates (fmtKey 0 0)
        = some { i := 0, j := 0, pointValue := 37, cacheCoins := 0 }) :=
  ⟨if_pos rfl, claim_C8 _ (if_pos rfl)⟩

end Geocoin
